import Mathlib

/-!
Verification development for the "Bricked" blueprint editor.

The source is a React/three.js component.  We embed its core logic shallowly:

* JS numbers are modelled as exact rationals (ℚ).  None of the verified
  properties depend on binary floating-point rounding.
* Euler angles, which the source stores in radians, are modelled by their
  coefficient of π (a rational): a value `c : ℚ` denotes the angle `c * π`.
  `THREE.MathUtils.degToRad d = d * π / 180` becomes `d / 180` in this
  representation, and all snapping arithmetic on angles is exact because the
  π factors cancel.
* `Math.round v` is `⌊v + 1/2⌋` (JS rounds half away from zero towards +∞).
* The two process-wide `Map`s of the geometry cache are modelled as
  association lists, and promise objects as entries of a promise registry.
-/

namespace Bricked

/-! ## §1 Numeric helpers and LEGO constants -/

/-- JS `Math.round`: round half towards +∞. -/
def jsRound (q : ℚ) : ℤ := ⌊q + 1/2⌋

/-- Source: `clamp01`. -/
def clamp01 (x : ℚ) : ℚ := max 0 (min 1 x)

/-- Source: `STUD_PITCH = 8.0` (mm), the X/Z grid spacing. -/
def STUD_PITCH : ℚ := 8

/-- Source: `BRICK_H = 9.6` (mm), the height of one full brick. -/
def BRICK_H : ℚ := 48/5

/-- Source: `PLATE_H = BRICK_H / 3`. -/
def PLATE_H : ℚ := BRICK_H / 3

/-- Source `THREE.MathUtils.degToRad`, in the coefficient-of-π representation:
`d` degrees is `d * π / 180` radians, i.e. coefficient `d / 180`. -/
def degToRad (d : ℚ) : ℚ := d / 180

/-- Source `THREE.MathUtils.radToDeg` on a coefficient of π. -/
def radToDeg (c : ℚ) : ℚ := c * 180

/-! ## §2 Hex/RGB color conversion

Source functions `rgb01ToHex` and `hexToRgb01`.  JS `Number.prototype.toString(16)`
produces lowercase hex digits; `padStart(2, "0")` left-pads to two characters.
`parseInt(s, 16)` parses an optional sign, an optional `0x`/`0X` prefix and then
the longest prefix of hex digits; with no digits the result is `NaN`, which the
subsequent bitwise operators coerce to `0` (modelled by `Option.getD _ 0`).
Bitwise `>> 16` / `& 255` coerce to 32-bit; we take the value mod 2^32 and use
plain division/mod, which agrees with the 32-bit semantics for the resulting
bit extractions. -/

/-- Lowercase hex digit for `n < 16`, as produced by `toString(16)`. -/
def toHexDigit (n : ℕ) : Char :=
  if n < 10 then Char.ofNat (48 + n) else Char.ofNat (87 + n)

/-- Two-digit lowercase hex of a byte: `toString(16).padStart(2, "0")`. -/
def byteToHexChars (n : ℕ) : List Char :=
  if n < 16 then ['0', toHexDigit n] else [toHexDigit (n / 16), toHexDigit (n % 16)]

/-- Numeric value of a hex digit (either case), as accepted by `parseInt(_, 16)`. -/
def hexVal (c : Char) : Option ℕ :=
  if '0' ≤ c ∧ c ≤ '9' then some (c.toNat - 48)
  else if 'a' ≤ c ∧ c ≤ 'f' then some (c.toNat - 87)
  else if 'A' ≤ c ∧ c ≤ 'F' then some (c.toNat - 55)
  else none

/-- Longest prefix of hex digits, accumulating the value; `none` if empty. -/
def hexDigitsVal : ℕ → List Char → Bool → Option ℕ
  | acc, [], seen => if seen then some acc else none
  | acc, c :: rest, seen =>
    match hexVal c with
    | some v => hexDigitsVal (acc * 16 + v) rest true
    | none => if seen then some acc else none

/-- JS whitespace characters (ASCII portion; the inputs here contain no
Unicode spaces). -/
def isWsChar (c : Char) : Bool :=
  c = ' ' ∨ c = '\t' ∨ c = '\n' ∨ c = '\r' ∨ c = '\x0b' ∨ c = '\x0c'

/-- Drop leading whitespace. -/
def skipWs : List Char → List Char
  | [] => []
  | c :: rest => if isWsChar c then skipWs rest else c :: rest

/-- The optional sign of `parseInt`. -/
def parseSign : List Char → Bool × List Char
  | c :: r => if c = '-' then (true, r) else if c = '+' then (false, r) else (false, c :: r)
  | [] => (false, [])

/-- The optional `0x`/`0X` prefix accepted by `parseInt(_, 16)`. -/
def strip0x : List Char → List Char
  | a :: b :: r => if a = '0' ∧ (b = 'x' ∨ b = 'X') then r else a :: b :: r
  | s => s

/-- JS `parseInt(s, 16)`: skip whitespace, optional sign, optional `0x` prefix,
then the longest hex-digit prefix; `none` models `NaN`. -/
def parseIntHex (s : List Char) : Option ℤ :=
  let sgn := parseSign (skipWs s)
  let body := strip0x sgn.2
  (hexDigitsVal 0 body false).map fun n => if sgn.1 then -(n : ℤ) else (n : ℤ)

/-- Source `rgb01ToHex`: each component is scaled by 255, rounded, clamped to
[0, 255] and rendered as two lowercase hex digits, prefixed with `#`. -/
def rgb01ToHex (rgb : ℚ × ℚ × ℚ) : List Char :=
  let toB : ℚ → List Char := fun v =>
    byteToHexChars (max 0 (min 255 (jsRound (v * 255)))).toNat
  '#' :: (toB rgb.1 ++ toB rgb.2.1 ++ toB rgb.2.2)

/-- Source `hex.replace` call: JS `String.replace` with a string pattern removes
only the first occurrence. -/
def removeFirstHash : List Char → List Char
  | [] => []
  | c :: rest => if c = '#' then rest else c :: removeFirstHash rest

/-- Source `hexToRgb01`: strip the first `#`, expand a 3-digit shorthand by
doubling each digit, parse as hex and extract the three bytes. -/
def hexToRgb01 (hex : List Char) : ℚ × ℚ × ℚ :=
  let h := removeFirstHash hex
  let full := if h.length = 3 then h.flatMap (fun c => [c, c]) else h
  let n : ℤ := (parseIntHex full).getD 0
  let u : ℕ := (n % 4294967296).toNat
  let r : ℕ := (u / 65536) % 256
  let g : ℕ := (u / 256) % 256
  let b : ℕ := u % 256
  ((r : ℚ) / 255, (g : ℚ) / 255, (b : ℚ) / 255)

/-! ## §3 The brick DSL parser

Source: `stripScadComments` and `parseBrickDSL` (the refined implementation,
lines 1287–1369 of the component file; the earlier variant differs only in its
catalog constant and in mapping `yStud`/`zLevel` to the depth/vertical axes the
other way around).

The statement scanner embeds the regex
`/brick\s*\(\s*"(.*?)"\s*,([\s\S]*?)\)\s*;?/g` and the per-field regexes of
`getNum`/`getVec3` with JS backtracking semantics.  Two remarks on fidelity:

* the lazy kind group `(.*?)` extends past a `"` that is not followed by
  `\s*,`, and `.` does not match a line terminator — both are replicated;
* inside `getVec3`, the engine never needs to backtrack into an already
  matched number when the following `\s*,`/`\s*\]` fails: every shorter
  alternative of `[-+]?\d*\.?\d+` ends immediately before a digit or a `.`,
  which fails those continuations as well, so taking the first (greedy-digits)
  match is exact.
-/

/-- The static part catalog `BRICK_DIMS` (refined variant): kind identifier to
footprint in studs. -/
def BRICK_DIMS : List (String × ℕ × ℕ) :=
  [("1x1", 1, 1), ("1x2", 1, 2), ("1x3", 1, 3), ("1x4", 1, 4), ("1x5", 1, 5),
   ("1x6", 1, 6), ("1x8", 1, 8), ("1x10", 1, 10), ("1x12", 1, 12),
   ("2x2", 2, 2), ("2x3", 2, 3), ("2x4", 2, 4), ("2x6", 2, 6), ("2x8", 2, 8),
   ("2x10", 2, 10), ("2x12", 2, 12),
   ("3x3", 3, 3), ("3x4", 3, 4), ("3x6", 3, 6),
   ("4x4", 4, 4), ("4x6", 4, 6), ("4x8", 4, 8),
   ("plate_1x1", 1, 1), ("plate_1x2", 1, 2), ("plate_1x3", 1, 3),
   ("plate_1x4", 1, 4), ("plate_1x6", 1, 6), ("plate_1x8", 1, 8),
   ("plate_2x2", 2, 2), ("plate_2x3", 2, 3), ("plate_2x4", 2, 4),
   ("plate_2x6", 2, 6), ("plate_2x8", 2, 8), ("plate_2x10", 2, 10),
   ("plate_3x3", 3, 3), ("plate_4x4", 4, 4),
   ("tile_1x1", 1, 1), ("tile_1x2", 1, 2), ("tile_1x3", 1, 3),
   ("tile_1x4", 1, 4), ("tile_1x6", 1, 6),
   ("tile_2x2", 2, 2), ("tile_2x3", 2, 3), ("tile_2x4", 2, 4),
   ("tile_2x6", 2, 6),
   ("slope_45_1x2", 1, 2), ("slope_45_2x2", 2, 2), ("slope_45_2x3", 2, 3),
   ("slope_45_2x4", 2, 4), ("slope_45_3x2", 3, 2), ("slope_45_3x3", 3, 3)]

/-- Association-list lookup (first binding wins, like a JS `Map`/object key). -/
def alget {α β : Type} [DecidableEq α] (k : α) : List (α × β) → Option β
  | [] => none
  | (a, b) :: t => if a = k then some b else alget k t

/-- The catalog membership test `kind in BRICK_DIMS`. -/
def lookupDims (kind : String) : Option (ℕ × ℕ) := alget kind BRICK_DIMS

/-- One placed Part record (source type `Brick`).  `uid()` draws a fresh
identifier from the clock and a random number; its only contract is
uniqueness, modelled by the part's ordinal in the parsed list. -/
structure Brick where
  id : ℕ
  kind : String
  xMm : ℚ
  yMm : ℚ
  zMm : ℚ
  rotX : ℚ
  rotY : ℚ
  rotZ : ℚ
  color : ℚ × ℚ × ℚ
deriving DecidableEq

/-- Strip one block comment `/* ... */` at a time; the lazy `[\s\S]*?` closes at
the nearest `*/`.  An unclosed `/*` matches nothing, and since no `*/` occurs
later, no later block comment can match either, so the rest is kept verbatim. -/
def findBlockClose : List Char → Option (List Char)
  | [] => none
  | '*' :: '/' :: rest => some rest
  | _ :: rest => findBlockClose rest

/-- The block-comment pass of `stripScadComments`. -/
def stripBlockComments : ℕ → List Char → List Char
  | 0, s => s
  | _ + 1, [] => []
  | fuel + 1, '/' :: '*' :: rest =>
    match findBlockClose rest with
    | some r => stripBlockComments fuel r
    | none => '/' :: '*' :: rest
  | fuel + 1, c :: rest => c :: stripBlockComments fuel rest

/-- Skip to the next line terminator (exclusive): the `.*` of `\/\/.*$` stops
before `\n`/`\r`. -/
def dropToEol : List Char → List Char
  | [] => []
  | c :: rest => if c = '\n' ∨ c = '\r' then c :: rest else dropToEol rest

/-- The line-comment pass of `stripScadComments`. -/
def stripLineComments : ℕ → List Char → List Char
  | 0, s => s
  | _ + 1, [] => []
  | fuel + 1, '/' :: '/' :: rest => stripLineComments fuel (dropToEol rest)
  | fuel + 1, c :: rest => c :: stripLineComments fuel rest

/-- Source `stripScadComments`: block comments stripped first, then line
comments. -/
def stripScadComments (s : List Char) : List Char :=
  let noBlock := stripBlockComments s.length s
  stripLineComments noBlock.length noBlock

/-- ASCII lowercase, for the regex `i` flag. -/
def lowerCh (c : Char) : Char :=
  if 'A' ≤ c ∧ c ≤ 'Z' then Char.ofNat (c.toNat + 32) else c

/-- Match a literal (case-sensitively), returning the rest. -/
def matchLit : List Char → List Char → Option (List Char)
  | [], s => some s
  | _, [] => none
  | p :: ps, c :: cs => if c = p then matchLit ps cs else none

/-- Match a literal case-insensitively (regex `i` flag), returning the rest. -/
def matchLitCI : List Char → List Char → Option (List Char)
  | [], s => some s
  | _, [] => none
  | p :: ps, c :: cs => if lowerCh c = lowerCh p then matchLitCI ps cs else none

def isDigitCh (c : Char) : Bool := '0' ≤ c ∧ c ≤ '9'

/-- Split off the maximal digit run. -/
def takeDigits : List Char → List Char × List Char
  | [] => ([], [])
  | c :: rest =>
    if isDigitCh c then
      let (d, r) := takeDigits rest
      (c :: d, r)
    else ([], c :: rest)

/-- Value of a digit run. -/
def digitsToNat : List Char → ℕ
  | [] => 0
  | c :: rest => digitsToNat rest + (c.toNat - 48) * 10 ^ rest.length

/-- Leftmost-first match of `\d*\.?\d+` at the current position.  The greedy
digit run is taken; a `.` is consumed only when a digit follows it (otherwise
backtracking settles on the bare integer run, see the fidelity note above). -/
def matchUnsignedNum (s : List Char) : Option (ℚ × List Char) :=
  let (d1, r1) := takeDigits s
  match d1 with
  | _ :: _ =>
    match r1 with
    | '.' :: r2 =>
      let (d2, r3) := takeDigits r2
      match d2 with
      | _ :: _ => some ((digitsToNat d1 : ℚ) + (digitsToNat d2 : ℚ) / 10 ^ d2.length, r3)
      | [] => some ((digitsToNat d1 : ℚ), r1)
    | _ => some ((digitsToNat d1 : ℚ), r1)
  | [] =>
    match r1 with
    | '.' :: r2 =>
      let (d2, r3) := takeDigits r2
      match d2 with
      | _ :: _ => some ((digitsToNat d2 : ℚ) / 10 ^ d2.length, r3)
      | [] => none
    | _ => none

/-- The signed number pattern: with a sign present the tail must match after it (the
empty-sign alternative then starts at the sign character and fails). -/
def matchNum (s : List Char) : Option (ℚ × List Char) :=
  match s with
  | '-' :: r => (matchUnsignedNum r).map fun p => (-p.1, p.2)
  | '+' :: r => matchUnsignedNum r
  | _ => matchUnsignedNum s

/-- Attempt `name\s*=\s*(number)` at the current position. -/
def numAttempt (name : List Char) (s : List Char) : Option ℚ :=
  match matchLitCI name s with
  | none => none
  | some r1 =>
    match skipWs r1 with
    | '=' :: r2 => (matchNum (skipWs r2)).map Prod.fst
    | _ => none

/-- Source `getNum`: first match of `name\s*=\s*([-+]?\d*\.?\d+)` (flag `i`)
anywhere in the argument text. -/
def searchNum (name : List Char) : List Char → Option ℚ
  | [] => none
  | s@(_ :: rest) =>
    match numAttempt name s with
    | some q => some q
    | none => searchNum name rest

/-- Attempt `name\s*=\s*[\s*n1\s*,\s*n2\s*,\s*n3\s*]` at the current position. -/
def vec3Attempt (name : List Char) (s : List Char) : Option (ℚ × ℚ × ℚ) :=
  match matchLitCI name s with
  | none => none
  | some r1 =>
    match skipWs r1 with
    | '=' :: r2 =>
      match skipWs r2 with
      | '[' :: r3 =>
        match matchNum (skipWs r3) with
        | none => none
        | some (a, r4) =>
          match skipWs r4 with
          | ',' :: r5 =>
            match matchNum (skipWs r5) with
            | none => none
            | some (b, r6) =>
              match skipWs r6 with
              | ',' :: r7 =>
                match matchNum (skipWs r7) with
                | none => none
                | some (c, r8) =>
                  match skipWs r8 with
                  | ']' :: _ => some (a, b, c)
                  | _ => none
              | _ => none
          | _ => none
      | _ => none
    | _ => none

/-- Source `getVec3`: first match of the three-component array field. -/
def searchVec3 (name : List Char) : List Char → Option (ℚ × ℚ × ℚ)
  | [] => none
  | s@(_ :: rest) =>
    match vec3Attempt name s with
    | some v => some v
    | none => searchVec3 name rest

/-- The lazy kind group `(.*?)` followed by `"\s*,`: at each step first try to
close (a `"` whose following `\s*` ends at `,`), otherwise consume one
non-line-terminator character into the capture. -/
def scanKind : List Char → List Char → Option (List Char × List Char)
  | _, [] => none
  | acc, c :: rest =>
    if c = '"' then
      match skipWs rest with
      | ',' :: r2 => some (acc.reverse, r2)
      | _ => scanKind (c :: acc) rest
    else if c = '\n' ∨ c = '\r' then none
    else scanKind (c :: acc) rest

/-- The lazy args group `([\s\S]*?)` followed by `\)`: everything up to the
first `)`. -/
def scanArgs : List Char → List Char → Option (List Char × List Char)
  | _, [] => none
  | acc, c :: rest =>
    if c = ')' then some (acc.reverse, rest) else scanArgs (c :: acc) rest

/-- Attempt one whole statement match at the current position, returning
(kind text, argument text) and the rest after the consumed `\)\s*;?`. -/
def stmtAttempt (s : List Char) : Option ((List Char × List Char) × List Char) :=
  match matchLit "brick".data s with
  | none => none
  | some r1 =>
    match skipWs r1 with
    | '(' :: r2 =>
      match skipWs r2 with
      | '"' :: r3 =>
        match scanKind [] r3 with
        | none => none
        | some (kind, r4) =>
          match scanArgs [] r4 with
          | none => none
          | some (args, r5) =>
            match skipWs r5 with
            | ';' :: r6 => some ((kind, args), r6)
            | r6 => some ((kind, args), r6)
      | _ => none
    | _ => none

/-- The `while ((m = re.exec(src)))` loop: scan left to right; on a failed
attempt advance one character, on a success continue after the match. -/
def brickStmtsAux : ℕ → List Char → List (List Char × List Char)
  | 0, _ => []
  | _ + 1, [] => []
  | fuel + 1, s@(_ :: rest) =>
    match stmtAttempt s with
    | some (kv, r) => kv :: brickStmtsAux fuel r
    | none => brickStmtsAux fuel rest

def brickStmts (s : List Char) : List (List Char × List Char) :=
  brickStmtsAux s.length s

/-- The position if-chain of the parse loop (source lines 1327–1341): a full
explicit-mm triple takes priority; otherwise a full grid-units triple maps
`xStud → X`, `yStud → Z` and `zLevel → Y` (vertical) scaled by the stud pitch
and the brick height; otherwise the origin.  Returned as `(px, py, pz)`. -/
def positionOf (xMm yMm zMm xStud yStud zLevel : Option ℚ) : ℚ × ℚ × ℚ :=
  match xMm, yMm, zMm with
  | some a, some b, some c => (a, b, c)
  | _, _, _ =>
    match xStud, yStud, zLevel with
    | some sx, some sy, some sl =>
      (sx * STUD_PITCH, sl * BRICK_H, sy * STUD_PITCH)
    | _, _, _ => (0, 0, 0)

/-- The body of the parse loop for one matched statement: `continue` on an
unknown kind, otherwise build the Part from the extracted fields with the
documented defaults.  Total for every argument text. -/
def mkBrickRaw (kindRaw : List Char) (args : List Char) : Option Brick :=
  let kind := String.mk kindRaw
  if (lookupDims kind).isNone then none
  else
    let pos : ℚ × ℚ × ℚ :=
      positionOf (searchNum "xMm".data args) (searchNum "yMm".data args)
        (searchNum "zMm".data args) (searchNum "xStud".data args)
        (searchNum "yStud".data args) (searchNum "zLevel".data args)
    let rot : ℚ × ℚ × ℚ :=
      match searchVec3 "rot".data args with
      | some v => v
      | none =>
        match searchNum "rotY".data args with
        | some ry => (0, ry, 0)
        | none => (0, 0, 0)
    let col :=
      match searchVec3 "color".data args with
      | some v => v
      | none => (4/5, 1/10, 1/10)
    some { id := 0, kind := kind,
           xMm := pos.1, yMm := pos.2.1, zMm := pos.2.2,
           rotX := rot.1, rotY := rot.2.1, rotZ := rot.2.2,
           color := (clamp01 col.1, clamp01 col.2.1, clamp01 col.2.2) }

/-- Assign the fresh identifiers in push order. -/
def withIds : ℕ → List Brick → List Brick
  | _, [] => []
  | i, b :: t => { b with id := i } :: withIds (i + 1) t

/-- Source `parseBrickDSL`: strip comments, scan statements, build Parts,
skipping statements whose kind is not in the catalog. -/
def parseBrickDSL (text : String) : List Brick :=
  let src := stripScadComments text.data
  withIds 0 ((brickStmts src).filterMap fun kv => mkBrickRaw kv.1 kv.2)

/-! ## §4 The geometry cache

Source: `geomKey`, `getBrickGeometry` and the two process-wide maps
`geomCacheRef` (key → compiled `BufferGeometry`) and `geomPromiseRef`
(key → in-flight promise).  The source serializes `{ kind, ...params }` with
`JSON.stringify`; since that serialization of this fixed record shape is
injective in its fields, the key is modelled as the record itself.

Meshes and promises are heap objects whose identity matters ("reference
identical"); both are modelled by allocation numbers drawn from a single
fresh counter.  Events: a `resolve` call (the synchronous part of
`getBrickGeometry` up to returning a promise), and the completion of an
in-flight compile, successful (`settleOk`: store the mesh in the cache and
delete the in-flight entry) or failed (`settleErr`: the promise rejects with
the diagnostic; the source deletes the in-flight entry only on success).
All map accesses of one call happen atomically on the single JS thread. -/

/-- Source `BrickGeomParams`. -/
structure BrickGeomParams where
  fn : ℚ
  stud_d : ℚ
  stud_h : ℚ
  wall_gap : ℚ
deriving DecidableEq

/-- Source `geomKey(kind, p) = JSON.stringify({ kind, ...p })`, modelled as
the (injectively serialized) record. -/
structure GeomKey where
  kind : String
  fn : ℚ
  stud_d : ℚ
  stud_h : ℚ
  wall_gap : ℚ
deriving DecidableEq

def geomKey (kind : String) (p : BrickGeomParams) : GeomKey :=
  ⟨kind, p.fn, p.stud_d, p.stud_h, p.wall_gap⟩

/-- Settlement of a geometry promise. -/
inductive PromOutcome where
  | ok (meshId : ℕ)
  | err (diag : String)
deriving DecidableEq

/-- What one `getBrickGeometry` call returns: the cached mesh, the existing
in-flight promise, or a freshly started compile's promise. -/
inductive ResolveRes where
  | hit (meshId : ℕ)
  | joined (pid : ℕ)
  | started (pid : ℕ)
deriving DecidableEq

/-- The cache's process-wide state: the two maps, plus the promise registry
(each created promise, the key its compile serves, and its settlement). -/
structure CacheState where
  cache : List (GeomKey × ℕ)
  inflight : List (GeomKey × ℕ)
  proms : List (ℕ × GeomKey × Option PromOutcome)
  next : ℕ
deriving DecidableEq

def initCache : CacheState := ⟨[], [], [], 0⟩

/-- Replace the first binding of `k` (JS `Map.set` on an existing key). -/
def alset {α β : Type} [DecidableEq α] (k : α) (v : β) : List (α × β) → List (α × β)
  | [] => []
  | (a, b) :: t => if a = k then (k, v) :: t else (a, b) :: alset k v t

/-- Remove the first binding of `k` (JS `Map.delete`). -/
def alerase {α β : Type} [DecidableEq α] (k : α) : List (α × β) → List (α × β)
  | [] => []
  | (a, b) :: t => if a = k then t else (a, b) :: alerase k t

inductive CacheEvent where
  | resolveEv (k : GeomKey)
  | settleOkEv (k : GeomKey)
  | settleErrEv (k : GeomKey) (diag : String)

/-- One atomic event of the cache.  `resolveEv` is the body of
`getBrickGeometry`; `settleOkEv`/`settleErrEv` are the success/failure
continuations of the compile promise for `k` (no-ops unless such a compile is
actually pending, which is when they can occur). -/
def cacheStep (s : CacheState) : CacheEvent → CacheState × Option (GeomKey × ResolveRes)
  | .resolveEv k =>
    match alget k s.cache with
    | some m => (s, some (k, .hit m))
    | none =>
      match alget k s.inflight with
      | some p => (s, some (k, .joined p))
      | none =>
        let p := s.next
        ({ s with inflight := (k, p) :: s.inflight,
                  proms := (p, k, none) :: s.proms,
                  next := p + 1 },
         some (k, .started p))
  | .settleOkEv k =>
    match alget k s.inflight with
    | some p =>
      match alget p s.proms with
      | some (k', none) =>
        let m := s.next
        ({ s with cache := (k, m) :: s.cache,
                  inflight := alerase k s.inflight,
                  proms := alset p (k', some (.ok m)) s.proms,
                  next := m + 1 },
         none)
      | _ => (s, none)
    | none => (s, none)
  | .settleErrEv k d =>
    match alget k s.inflight with
    | some p =>
      match alget p s.proms with
      | some (k', none) =>
        ({ s with proms := alset p (k', some (.err d)) s.proms }, none)
      | _ => (s, none)
    | none => (s, none)

/-- Run a list of cache events, collecting the observations of the resolve
calls. -/
def cacheRun : CacheState → List CacheEvent → CacheState × List (GeomKey × ResolveRes)
  | s, [] => (s, [])
  | s, e :: rest =>
    match cacheStep s e with
    | (s', o) =>
      match cacheRun s' rest with
      | (sf, obs) => (sf, o.toList ++ obs)

/-- The mesh instance a resolve call's result ultimately delivers to its
caller, judged against a (final) state: a cache hit delivers immediately, a
returned promise delivers its `ok` settlement. -/
def meshOf (s : CacheState) : ResolveRes → Option ℕ
  | .hit m => some m
  | .joined p =>
    match alget p s.proms with
    | some (_, some (.ok m)) => some m
    | _ => none
  | .started p =>
    match alget p s.proms with
    | some (_, some (.ok m)) => some m
    | _ => none

def isStarted : ResolveRes → Bool
  | .started _ => true
  | _ => false

/-- Number of compiles started for `k` in an observation list. -/
def startedCount (k : GeomKey) (obs : List (GeomKey × ResolveRes)) : ℕ :=
  (obs.filter fun o => o.1 = k ∧ isStarted o.2).length

/-- Whether `k` has a cache entry or an in-flight entry. -/
def keyKnownB (s : CacheState) (k : GeomKey) : Bool :=
  (alget k s.cache).isSome || (alget k s.inflight).isSome

/-- What the trace records about one resolve observation: a cache hit's mesh
is the cached one, and a returned promise is registered for the same key in
the promise registry. -/
def trackOne (s : CacheState) (k : GeomKey) : ResolveRes → Prop
  | .hit m => alget k s.cache = some m
  | .joined p => ∃ st, alget p s.proms = some (k, st)
  | .started p => ∃ st, alget p s.proms = some (k, st)

/-- The cache's global invariant: in-flight keys are distinct; every
in-flight promise is registered to its key and not yet successfully settled;
a registered promise's settlement state matches the two maps (pending or
failed promises are still the in-flight entry of their key with no cache
entry; a successful one's mesh is the key's cache entry and the in-flight
entry is gone); at most one promise is ever registered per key; and all
registered promise ids are below the allocation counter. -/
structure CacheInv (s : CacheState) : Prop where
  nodupInf : (s.inflight.map Prod.fst).Nodup
  reg : ∀ k p, alget k s.inflight = some p →
    ∃ st, alget p s.proms = some (k, st) ∧ ∀ m, st ≠ some (.ok m)
  states : ∀ p k st, alget p s.proms = some (k, st) →
    (st = none → alget k s.inflight = some p ∧ alget k s.cache = none)
    ∧ (∀ d, st = some (.err d) → alget k s.inflight = some p ∧ alget k s.cache = none)
    ∧ (∀ m, st = some (.ok m) → alget k s.cache = some m ∧ alget k s.inflight = none)
  uniq : ∀ p q k stp stq, alget p s.proms = some (k, stp) →
    alget q s.proms = some (k, stq) → p = q
  fresh : ∀ p e, alget p s.proms = some e → p < s.next

/-- The key and parameters of the demonstration traces. -/
def demoKey : GeomKey := geomKey "2x2" ⟨48, 24/5, 9/5, 1/50⟩

/-- Two concurrent resolves, a successful compile, then a later resolve. -/
def demoTrace : List CacheEvent :=
  [.resolveEv demoKey, .resolveEv demoKey, .settleOkEv demoKey, .resolveEv demoKey]

/-- A resolve whose compile fails, followed by a retry for the same key. -/
def demoFailTrace : List CacheEvent :=
  [.resolveEv demoKey, .settleErrEv demoKey "ERROR: OpenSCAD compile failed",
   .resolveEv demoKey]

/-- The sixteen lowercase hex digits. -/
def lowerHexDigits : List Char := "0123456789abcdef".data

/-- The facts about one hex-digit character that drive the roundtrip proof:
its value, and that it is none of the characters `parseIntHex` treats
specially. -/
def goodHexChar (c : Char) (v : ℕ) : Prop :=
  hexVal c = some v ∧ v < 16 ∧ isWsChar c = false
  ∧ c ≠ '-' ∧ c ≠ '+' ∧ c ≠ 'x' ∧ c ≠ 'X'

/-! ## §5 Snapping, commit and the drag gesture

Source: `snapValue`, `snapEulerToDegStep`, `applySnapToMesh`,
`commitSelectedMeshToState` and the `TransformControls` listeners.  A mesh
transform carries a position in mm and a rotation in radians (coefficients of
π, see the header). -/

/-- A scene mesh transform: `mesh.position` and `mesh.rotation`. -/
structure Transform where
  px : ℚ
  py : ℚ
  pz : ℚ
  rx : ℚ
  ry : ℚ
  rz : ℚ
deriving DecidableEq

/-- The snapping options and modifier state read at commit time:
`snapEnabled`, `snapStud`, `snapYLevels` and `keysRef.current.ctrl`. -/
structure SnapFlags where
  snapEnabled : Bool
  snapStud : Bool
  snapYLevels : Bool
  ctrl : Bool
deriving DecidableEq

/-- Source `snapValue(v, stepV) = Math.round(v / stepV) * stepV`. -/
def snapValue (v : ℚ) (stepV : ℚ) : ℚ := (jsRound (v / stepV) : ℚ) * stepV

/-- Source `snapEulerToDegStep`: each rotation component is rounded to a
multiple of `degToRad stepDeg` (exact in the coefficient-of-π encoding). -/
def snapEulerToDegStep (rx ry rz : ℚ) (stepDeg : ℚ) : ℚ × ℚ × ℚ :=
  let stepRad := degToRad stepDeg
  (snapValue rx stepRad, snapValue ry stepRad, snapValue rz stepRad)

/-- The active horizontal pitch: `snapStud ? STUD_PITCH : 1.0`. -/
def stepXZ (f : SnapFlags) : ℚ := if f.snapStud then STUD_PITCH else 1

/-- The active vertical step: `snapYLevels ? PLATE_H : 1.0`. -/
def stepY (f : SnapFlags) : ℚ := if f.snapYLevels then PLATE_H else 1

/-- Source `applySnapToMesh`: skipped entirely when the master toggle is off
or Ctrl is held; otherwise X/Z snap to the active pitch, Y to the active
level step, and the rotation to 90° increments. -/
def applySnapToMesh (f : SnapFlags) (t : Transform) : Transform :=
  if ¬f.snapEnabled then t
  else if f.ctrl then t
  else
    let r := snapEulerToDegStep t.rx t.ry t.rz 90
    { px := snapValue t.px (stepXZ f),
      py := snapValue t.py (stepY f),
      pz := snapValue t.pz (stepXZ f),
      rx := r.1, ry := r.2.1, rz := r.2.2 }

/-- The snap as §4.4 of the spec words it, for comparison with the source's
`applySnapToMesh`: round the two horizontal axes to the configured pitch, the
vertical axis to the configured level height, and every rotation axis to 90°. -/
def specSnap (f : SnapFlags) (t : Transform) : Transform :=
  { px := (jsRound (t.px / stepXZ f) : ℚ) * stepXZ f,
    py := (jsRound (t.py / stepY f) : ℚ) * stepY f,
    pz := (jsRound (t.pz / stepXZ f) : ℚ) * stepXZ f,
    rx := (jsRound (t.rx / degToRad 90) : ℚ) * degToRad 90,
    ry := (jsRound (t.ry / degToRad 90) : ℚ) * degToRad 90,
    rz := (jsRound (t.rz / degToRad 90) : ℚ) * degToRad 90 }

/-- The placement engine's state touched by a drag gesture. -/
structure EngineState where
  bricks : List Brick
  meshes : List Transform
  selected : Option ℕ
  gizmoActive : Bool
  orbitEnabled : Bool
deriving DecidableEq

/-- Write a snapped mesh transform back into a Part record: only the position
and rotation fields change (`setBricks` in `commitSelectedMeshToState`). -/
def writeBack (b : Brick) (t : Transform) : Brick :=
  { b with xMm := t.px, yMm := t.py, zMm := t.pz,
           rotX := radToDeg t.rx, rotY := radToDeg t.ry, rotZ := radToDeg t.rz }

/-- Source `commitSelectedMeshToState`: no-op without a selection or mesh;
otherwise snap the mesh in place and write its transform back into the
selected Part. -/
def commitSelectedMeshToState (f : SnapFlags) (s : EngineState) : EngineState :=
  match s.selected with
  | none => s
  | some idx =>
    match s.meshes[idx]? with
    | none => s
    | some mesh =>
      let m := applySnapToMesh f mesh
      match s.bricks[idx]? with
      | none => { s with meshes := s.meshes.set idx m }
      | some b =>
        { s with meshes := s.meshes.set idx m,
                 bricks := s.bricks.set idx (writeBack b m) }

/-- The externally delivered gizmo events: `mouseDown`, the control mutating
the attached mesh's transform during the drag, `mouseUp` and
`dragging-changed`. -/
inductive GizmoEvent where
  | mouseDownEv
  | moveEv (t : Transform)
  | mouseUpEv
  | draggingChangedEv (dragging : Bool)

/-- The registered `TransformControls` listeners: commit runs from the
`mouseUp` and `dragging-changed → false` handlers only; during the drag the
control only updates the attached mesh's transform. -/
def handleGizmo (f : SnapFlags) (s : EngineState) : GizmoEvent → EngineState
  | .mouseDownEv => { s with gizmoActive := true, orbitEnabled := false }
  | .moveEv t =>
    match s.selected with
    | none => s
    | some idx => { s with meshes := s.meshes.set idx t }
  | .mouseUpEv =>
    commitSelectedMeshToState f { s with gizmoActive := false, orbitEnabled := true }
  | .draggingChangedEv dragging =>
    if dragging then { s with orbitEnabled := false }
    else commitSelectedMeshToState f { s with orbitEnabled := true }

def engineRun (f : SnapFlags) : EngineState → List GizmoEvent → EngineState
  | s, [] => s
  | s, e :: rest => engineRun f (handleGizmo f s e) rest

/-! ## §6 Step cursor and highlight state

Source: the `step` state, its mutators (`Prev`, `Next`, `Show all`, the step
slider, the `Enter`/`Backspace` hotkeys) and the clamping effect
`setStep(s => Math.min(s, bricks.length))` that runs after every change of
`bricks.length`; plus the emphasis logic `applyMaterialState` and the effects
that recompute the auto-highlight after a cursor change. -/

/-- Cursor mutation events.  `setSlider` carries the value of the range input
(whose `min`/`max` attributes are `0`/`bricks.length`); `partsChanged` is a
Part-list replacement, immediately followed by the clamping effect. -/
inductive StepEvent where
  | prevBtn
  | nextBtn
  | showAll
  | setSlider (v : ℤ)
  | enterKey
  | backspaceKey
  | partsChanged (newLen : ℕ)

/-- The cursor state: `step` and `bricks.length`. -/
structure StepState where
  step : ℤ
  len : ℕ
deriving DecidableEq

def stepApply (s : StepState) : StepEvent → StepState
  | .prevBtn => { s with step := max 0 (s.step - 1) }
  | .nextBtn => { s with step := min (s.len : ℤ) (s.step + 1) }
  | .showAll => { s with step := (s.len : ℤ) }
  | .setSlider v => { s with step := v }
  | .enterKey => { s with step := min (s.len : ℤ) (s.step + 1) }
  | .backspaceKey => { s with step := max 0 (s.step - 1) }
  | .partsChanged n => { step := min s.step (n : ℤ), len := n }

def stepRun : StepState → List StepEvent → StepState
  | s, [] => s
  | s, e :: rest => stepRun (stepApply s e) rest

/-- Validity of an event against the current state: the range input can only
produce values within its `min`/`max` attributes. -/
def stepEventOk (s : StepState) : StepEvent → Prop
  | .setSlider v => 0 ≤ v ∧ v ≤ (s.len : ℤ)
  | _ => True

def stepTraceOk : StepState → List StepEvent → Prop
  | _, [] => True
  | s, e :: rest => stepEventOk s e ∧ stepTraceOk (stepApply s e) rest

/-- The visual emphasis classes of `applyMaterialState`. -/
inductive Emphasis where
  | selectedEm
  | autoEm
  | noneEm
deriving DecidableEq

/-- The highlight-relevant view state: cursor, part count, manual selection
(`selectedIndexRef`) and auto-highlight (`autoHighlightIdxRef`). -/
structure ViewState where
  step : ℕ
  partCount : ℕ
  selected : Option ℕ
  autoIdx : Option ℕ
deriving DecidableEq

/-- Source `applyMaterialState`: the selected emphasis wins; the auto
emphasis shows only when no manual selection is active. -/
def emphasisOf (s : ViewState) (i : ℕ) : Emphasis :=
  if s.selected = some i then .selectedEm
  else if s.autoIdx = some i ∧ s.selected = none then .autoEm
  else .noneEm

/-- The net view state after the step cursor changes to `newStep`: the
rebuild effect (which has `step` among its dependencies) clears the manual
selection and, once the rebuild finishes, sets the auto-highlight to the last
visible index — `visibleCount - 1`, or none when nothing is visible; the
increase-only step-transition effect writes the same value. -/
def stepChange (s : ViewState) (newStep : ℕ) : ViewState :=
  let visibleCount := min newStep s.partCount
  { s with step := newStep, selected := none,
           autoIdx := if 0 < visibleCount then some (visibleCount - 1) else none }

/-! ## §7 Helper lemmas -/

theorem jsRound_intCast (k : ℤ) : jsRound (k : ℚ) = k := by
  unfold jsRound
  rw [Int.floor_eq_iff]
  constructor
  · linarith
  · linarith

theorem snapValue_mul (k : ℤ) (s : ℚ) (hs : s ≠ 0) :
    snapValue ((k : ℚ) * s) s = (k : ℚ) * s := by
  unfold snapValue
  rw [mul_div_cancel_right₀ _ hs, jsRound_intCast]

theorem snapValue_idem (v s : ℚ) (hs : s ≠ 0) :
    snapValue (snapValue v s) s = snapValue v s :=
  snapValue_mul (jsRound (v / s)) s hs

theorem stepXZ_ne_zero (f : SnapFlags) : stepXZ f ≠ 0 := by
  unfold stepXZ STUD_PITCH
  split <;> norm_num

theorem stepY_ne_zero (f : SnapFlags) : stepY f ≠ 0 := by
  unfold stepY PLATE_H BRICK_H
  split <;> norm_num

theorem degToRad_90_ne_zero : degToRad 90 ≠ 0 := by
  unfold degToRad
  norm_num

theorem applySnap_active (f : SnapFlags) (t : Transform) (he : f.snapEnabled = true)
    (hc : f.ctrl = false) : applySnapToMesh f t = specSnap f t := by
  unfold applySnapToMesh specSnap snapEulerToDegStep snapValue
  simp [he, hc]

theorem applySnap_skip (f : SnapFlags) (t : Transform)
    (h : f.snapEnabled = false ∨ f.ctrl = true) : applySnapToMesh f t = t := by
  unfold applySnapToMesh
  rcases h with h | h <;> simp [h]

theorem applySnap_idem (f : SnapFlags) (t : Transform) :
    applySnapToMesh f (applySnapToMesh f t) = applySnapToMesh f t := by
  by_cases he : f.snapEnabled
  · by_cases hc : f.ctrl
    · rw [applySnap_skip f _ (Or.inr hc)]
    · rw [applySnap_active f t he (by simpa using hc),
          applySnap_active f _ he (by simpa using hc)]
      unfold specSnap
      simp only [Transform.mk.injEq]
      refine ⟨?_, ?_, ?_, ?_, ?_, ?_⟩ <;>
        · rw [mul_div_cancel_right₀, jsRound_intCast]
          first
            | exact stepXZ_ne_zero f
            | exact stepY_ne_zero f
            | exact degToRad_90_ne_zero
  · rw [applySnap_skip f _ (Or.inl (by simpa using he))]

theorem writeBack_writeBack (b : Brick) (t : Transform) :
    writeBack (writeBack b t) t = writeBack b t := rfl

theorem engineRun_append (f : SnapFlags) (l1 l2 : List GizmoEvent) :
    ∀ s, engineRun f s (l1 ++ l2) = engineRun f (engineRun f s l1) l2 := by
  induction l1 with
  | nil => intro s; rfl
  | cons e rest ih => intro s; simp only [List.cons_append, engineRun]; exact ih _

theorem handleGizmo_move (f : SnapFlags) (s : EngineState) (t : Transform) :
    (handleGizmo f s (.moveEv t)).bricks = s.bricks
    ∧ (handleGizmo f s (.moveEv t)).selected = s.selected := by
  obtain ⟨bricks, meshes, sel, giz, orb⟩ := s
  cases sel <;> simp [handleGizmo]

/-- During a drag, the gizmo's move events touch only the mesh transforms:
the Part list and the selection are preserved. -/
theorem drag_preserves (f : SnapFlags) (ms : List Transform) :
    ∀ s : EngineState,
      (engineRun f s (ms.map GizmoEvent.moveEv)).bricks = s.bricks
      ∧ (engineRun f s (ms.map GizmoEvent.moveEv)).selected = s.selected := by
  induction ms with
  | nil => intro s; exact ⟨rfl, rfl⟩
  | cons t rest ih =>
    intro s
    simp only [List.map_cons, engineRun]
    obtain ⟨h1, h2⟩ := ih (handleGizmo f s (.moveEv t))
    exact ⟨h1.trans (handleGizmo_move f s t).1, h2.trans (handleGizmo_move f s t).2⟩

theorem list_set_getElem?_self {α : Type} (l : List α) (i : ℕ) (a : α) (h : i < l.length) :
    (l.set i a)[i]? = some a := List.getElem?_set_eq_of_lt a h

theorem list_set_getElem?_ne {α : Type} (l : List α) (i j : ℕ) (a : α) (h : i ≠ j) :
    (l.set i a)[j]? = l[j]? := List.getElem?_set_ne h

/-! ## §8 Claim theorems -/

/-- C8: the commit-time snap function is idempotent — applying
`applySnapToMesh` to a transform whose horizontal positions are multiples of
the active pitch, whose vertical position is a multiple of the active level
height and whose rotations are multiples of 90° yields the identical
transform. -/
theorem C8_snap_idempotent (f : SnapFlags) (t : Transform)
    (hx : ∃ k : ℤ, t.px = k * stepXZ f) (hy : ∃ k : ℤ, t.py = k * stepY f)
    (hz : ∃ k : ℤ, t.pz = k * stepXZ f)
    (hrx : ∃ k : ℤ, t.rx = k * degToRad 90)
    (hry : ∃ k : ℤ, t.ry = k * degToRad 90)
    (hrz : ∃ k : ℤ, t.rz = k * degToRad 90) :
    applySnapToMesh f t = t := by
  by_cases he : f.snapEnabled
  · by_cases hc : f.ctrl
    · exact applySnap_skip f t (Or.inr hc)
    · rw [applySnap_active f t he (by simpa using hc)]
      obtain ⟨kx, hkx⟩ := hx
      obtain ⟨ky, hky⟩ := hy
      obtain ⟨kz, hkz⟩ := hz
      obtain ⟨krx, hkrx⟩ := hrx
      obtain ⟨kry, hkry⟩ := hry
      obtain ⟨krz, hkrz⟩ := hrz
      unfold specSnap
      cases t
      simp only [Transform.mk.injEq]
      simp only at hkx hky hkz hkrx hkry hkrz
      subst hkx hky hkz hkrx hkry hkrz
      refine ⟨?_, ?_, ?_, ?_, ?_, ?_⟩ <;>
        · rw [mul_div_cancel_right₀, jsRound_intCast]
          first
            | exact stepXZ_ne_zero f
            | exact stepY_ne_zero f
            | exact degToRad_90_ne_zero
  · exact applySnap_skip f t (Or.inl (by simpa using he))

theorem commit_eval (f : SnapFlags) (s : EngineState) (idx : ℕ) (mesh : Transform)
    (b : Brick) (hsel : s.selected = some idx) (hm : s.meshes[idx]? = some mesh)
    (hb : s.bricks[idx]? = some b) :
    commitSelectedMeshToState f s =
      { s with meshes := s.meshes.set idx (applySnapToMesh f mesh),
               bricks := s.bricks.set idx (writeBack b (applySnapToMesh f mesh)) } := by
  unfold commitSelectedMeshToState
  simp only [hsel, hm, hb]

theorem commit_eval_noMesh (f : SnapFlags) (s : EngineState) (idx : ℕ)
    (hsel : s.selected = some idx) (hm : s.meshes[idx]? = none) :
    commitSelectedMeshToState f s = s := by
  unfold commitSelectedMeshToState
  simp only [hsel, hm]

theorem commit_eval_noBrick (f : SnapFlags) (s : EngineState) (idx : ℕ) (mesh : Transform)
    (hsel : s.selected = some idx) (hm : s.meshes[idx]? = some mesh)
    (hb : s.bricks[idx]? = none) :
    commitSelectedMeshToState f s =
      { s with meshes := s.meshes.set idx (applySnapToMesh f mesh) } := by
  unfold commitSelectedMeshToState
  simp only [hsel, hm, hb]

theorem getElem?_some_lt {α : Type} {l : List α} {i : ℕ} {a : α} (h : l[i]? = some a) :
    i < l.length := (List.getElem?_eq_some_iff.mp h).1

/-- C4 counterexample: with the master "Snap enabled" toggle off and Ctrl not
held, the commit-time snap leaves a 45° rotation untouched — the claim's
"rounds each rotation axis to the nearest multiple of 90 degrees
unconditionally [when the disable-snapping modifier is not held]" fails. -/
theorem C4_commit_snap_counterexample :
    (⟨false, true, true, false⟩ : SnapFlags).ctrl = false
    ∧ applySnapToMesh ⟨false, true, true, false⟩ ⟨3, 5, 7, degToRad 45, 0, 0⟩
        = ⟨3, 5, 7, degToRad 45, 0, 0⟩
    ∧ ∀ k : ℤ,
        (applySnapToMesh ⟨false, true, true, false⟩ ⟨3, 5, 7, degToRad 45, 0, 0⟩).rx
          ≠ (k : ℚ) * degToRad 90 := by
  refine ⟨rfl, rfl, ?_⟩
  intro k h
  have hrx : (applySnapToMesh ⟨false, true, true, false⟩
      ⟨3, 5, 7, degToRad 45, 0, 0⟩).rx = degToRad 45 := rfl
  rw [hrx] at h
  have h45 : degToRad 45 = 1/4 := by norm_num [degToRad]
  have h90 : degToRad 90 = 1/2 := by norm_num [degToRad]
  rw [h45, h90] at h
  have h2 : ((2 * k : ℤ) : ℚ) = 1 := by push_cast; linarith
  have h3 : (2 * k : ℤ) = 1 := by exact_mod_cast h2
  omega

/-- C4 (amended): during a drag (`mouseDown` and any sequence of gizmo move
events) the Part list is never mutated; the commit happens at drag end,
writing the snapped final mesh transform back into the selected Part, and the
redundant second commit event fired at the same drag end changes nothing
more; unless the disable-snapping modifier is held at release or the master
snap toggle is off, the snap rounds the two horizontal axes to the active
pitch, the vertical axis to the active level height, and every rotation axis
to 90°; with the modifier held or the master toggle off the transform is
committed unchanged. -/
theorem C4_commit_amended :
    (∀ (f : SnapFlags) (s : EngineState) (ms : List Transform),
       (engineRun f s (.mouseDownEv :: ms.map GizmoEvent.moveEv)).bricks = s.bricks)
    ∧ (∀ (f : SnapFlags) (s : EngineState) (ms : List Transform) (idx : ℕ)
         (mesh : Transform) (b : Brick),
       s.selected = some idx →
       (engineRun f s (.mouseDownEv :: ms.map GizmoEvent.moveEv)).meshes[idx]? = some mesh →
       s.bricks[idx]? = some b →
       (engineRun f s (.mouseDownEv :: ms.map GizmoEvent.moveEv ++ [.mouseUpEv])).bricks
         = s.bricks.set idx (writeBack b (applySnapToMesh f mesh))
       ∧ (engineRun f s (.mouseDownEv :: ms.map GizmoEvent.moveEv
            ++ [.mouseUpEv, .draggingChangedEv false])).bricks
         = s.bricks.set idx (writeBack b (applySnapToMesh f mesh)))
    ∧ (∀ (f : SnapFlags) (t : Transform), f.snapEnabled = true → f.ctrl = false →
        applySnapToMesh f t = specSnap f t)
    ∧ (∀ (f : SnapFlags) (t : Transform), f.snapEnabled = false ∨ f.ctrl = true →
        applySnapToMesh f t = t) := by
  have hdrag : ∀ (f : SnapFlags) (s : EngineState) (ms : List Transform),
      (engineRun f s (.mouseDownEv :: ms.map GizmoEvent.moveEv)).bricks = s.bricks
      ∧ (engineRun f s (.mouseDownEv :: ms.map GizmoEvent.moveEv)).selected = s.selected := by
    intro f s ms
    have h0 : engineRun f s (.mouseDownEv :: ms.map GizmoEvent.moveEv)
        = engineRun f (handleGizmo f s .mouseDownEv) (ms.map GizmoEvent.moveEv) := rfl
    rw [h0]
    obtain ⟨d1, d2⟩ := drag_preserves f ms (handleGizmo f s .mouseDownEv)
    exact ⟨d1, d2⟩
  refine ⟨fun f s ms => (hdrag f s ms).1, ?_, fun f t => applySnap_active f t,
         fun f t => applySnap_skip f t⟩
  intro f s ms idx mesh b hsel hm hb
  set sd := engineRun f s (.mouseDownEv :: ms.map GizmoEvent.moveEv) with hsd
  have hsdsel : sd.selected = some idx := (hdrag f s ms).2.trans hsel
  have hsdbr : sd.bricks = s.bricks := (hdrag f s ms).1
  set m := applySnapToMesh f mesh with hmdef
  set sdUp : EngineState := { sd with gizmoActive := false, orbitEnabled := true } with hsdUp
  have hm2 : sdUp.meshes[idx]? = some mesh := hm
  have hb2 : sdUp.bricks[idx]? = some b := by
    show sd.bricks[idx]? = some b
    rw [hsdbr]; exact hb
  have hrun1 : engineRun f s (.mouseDownEv :: ms.map GizmoEvent.moveEv ++ [.mouseUpEv])
      = commitSelectedMeshToState f sdUp := by
    rw [engineRun_append]
    rfl
  have hc1 : commitSelectedMeshToState f sdUp
      = { sdUp with meshes := sdUp.meshes.set idx m,
                    bricks := sdUp.bricks.set idx (writeBack b m) } :=
    commit_eval f sdUp idx mesh b hsdsel hm2 hb2
  have hbr1 : (engineRun f s (.mouseDownEv :: ms.map GizmoEvent.moveEv ++ [.mouseUpEv])).bricks
      = s.bricks.set idx (writeBack b m) := by
    rw [hrun1, hc1]
    show sd.bricks.set idx (writeBack b m) = s.bricks.set idx (writeBack b m)
    rw [hsdbr]
  refine ⟨hbr1, ?_⟩
  have hsplit : GizmoEvent.mouseDownEv :: ms.map GizmoEvent.moveEv
      ++ [GizmoEvent.mouseUpEv, GizmoEvent.draggingChangedEv false]
      = (GizmoEvent.mouseDownEv :: ms.map GizmoEvent.moveEv ++ [GizmoEvent.mouseUpEv])
        ++ [GizmoEvent.draggingChangedEv false] := by
    simp
  rw [hsplit, engineRun_append, hrun1, hc1]
  set s1 : EngineState :=
    { sdUp with meshes := sdUp.meshes.set idx m,
                bricks := sdUp.bricks.set idx (writeBack b m) } with hs1
  have hidxm : idx < sdUp.meshes.length := getElem?_some_lt hm2
  have hidxb : idx < sdUp.bricks.length := getElem?_some_lt hb2
  have h1sel : s1.selected = some idx := hsdsel
  have h1m : s1.meshes[idx]? = some m := list_set_getElem?_self _ _ _ hidxm
  have h1b : s1.bricks[idx]? = some (writeBack b m) := list_set_getElem?_self _ _ _ hidxb
  have hrun2 : engineRun f s1 [GizmoEvent.draggingChangedEv false]
      = commitSelectedMeshToState f { s1 with orbitEnabled := true } := rfl
  have h1sel2 : ({ s1 with orbitEnabled := true } : EngineState).selected = some idx := h1sel
  have h1m2 : ({ s1 with orbitEnabled := true } : EngineState).meshes[idx]? = some m := h1m
  have h1b2 : ({ s1 with orbitEnabled := true } : EngineState).bricks[idx]?
      = some (writeBack b m) := h1b
  have hc2 := commit_eval f { s1 with orbitEnabled := true } idx m (writeBack b m)
    h1sel2 h1m2 h1b2
  rw [hrun2, hc2]
  show (sdUp.bricks.set idx (writeBack b m)).set idx
      (writeBack (writeBack b m) (applySnapToMesh f m)) = s.bricks.set idx (writeBack b m)
  rw [hmdef, applySnap_idem, ← hmdef, writeBack_writeBack, List.set_set]
  show sd.bricks.set idx (writeBack b m) = s.bricks.set idx (writeBack b m)
  rw [hsdbr]

theorem C4_commit_amended_witness :
    (engineRun ⟨true, true, true, false⟩
        ⟨[⟨7, "2x4", 0, 0, 0, 0, 0, 0, (1, 0, 0)⟩], [⟨0, 0, 0, 0, 0, 0⟩], some 0, false, true⟩
        (.mouseDownEv :: [(⟨13, 47/5, 3, 0, 1/4, 0⟩ : Transform)].map GizmoEvent.moveEv
          ++ [.mouseUpEv])).bricks
      = [⟨7, "2x4", 0, 0, 0, 0, 0, 0, (1, 0, 0)⟩].set 0
          (writeBack ⟨7, "2x4", 0, 0, 0, 0, 0, 0, (1, 0, 0)⟩
            (applySnapToMesh ⟨true, true, true, false⟩ ⟨13, 47/5, 3, 0, 1/4, 0⟩)) :=
  (C4_commit_amended.2.1 ⟨true, true, true, false⟩
    ⟨[⟨7, "2x4", 0, 0, 0, 0, 0, 0, (1, 0, 0)⟩], [⟨0, 0, 0, 0, 0, 0⟩], some 0, false, true⟩
    [⟨13, 47/5, 3, 0, 1/4, 0⟩] 0 ⟨13, 47/5, 3, 0, 1/4, 0⟩
    ⟨7, "2x4", 0, 0, 0, 0, 0, 0, (1, 0, 0)⟩ rfl (by decide!) (by decide!)).1

/-- C9: commit writes back only the selected Part's position and rotation —
its identifier, kind and color are unchanged, every other Part is unchanged,
the list length is unchanged — and the drag-time events (`mouseDown`, gizmo
moves, `dragging-changed → true`) never mutate the Part list. -/
theorem C9_commit_frame :
    (∀ (f : SnapFlags) (s : EngineState) (idx : ℕ),
       s.selected = some idx →
         (commitSelectedMeshToState f s).bricks.length = s.bricks.length
         ∧ (∀ j, j ≠ idx → (commitSelectedMeshToState f s).bricks[j]? = s.bricks[j]?)
         ∧ ∀ b b', s.bricks[idx]? = some b →
             (commitSelectedMeshToState f s).bricks[idx]? = some b' →
             b'.id = b.id ∧ b'.kind = b.kind ∧ b'.color = b.color)
    ∧ (∀ (f : SnapFlags) (s : EngineState) (t : Transform),
         (handleGizmo f s (.moveEv t)).bricks = s.bricks)
    ∧ (∀ (f : SnapFlags) (s : EngineState),
         (handleGizmo f s .mouseDownEv).bricks = s.bricks)
    ∧ (∀ (f : SnapFlags) (s : EngineState),
         (handleGizmo f s (.draggingChangedEv true)).bricks = s.bricks) := by
  refine ⟨?_, fun f s t => (handleGizmo_move f s t).1, fun f s => rfl, fun f s => rfl⟩
  intro f s idx hsel
  cases hm : s.meshes[idx]? with
  | none =>
    rw [commit_eval_noMesh f s idx hsel hm]
    refine ⟨rfl, fun j _ => rfl, fun b b' hb hb' => ?_⟩
    have hbb : b = b' := Option.some.inj (hb.symm.trans hb')
    subst hbb
    exact ⟨rfl, rfl, rfl⟩
  | some mesh =>
    cases hb : s.bricks[idx]? with
    | none =>
      rw [commit_eval_noBrick f s idx mesh hsel hm hb]
      refine ⟨rfl, fun j _ => rfl, fun b b' hbs hb' => ?_⟩
      exact Option.noConfusion hbs
    | some b0 =>
      rw [commit_eval f s idx mesh b0 hsel hm hb]
      have hidx : idx < s.bricks.length := getElem?_some_lt hb
      refine ⟨by simp, fun j hj => list_set_getElem?_ne _ _ _ _ (fun hh => hj hh.symm), ?_⟩
      intro b b' hbs hb'
      have hbb0 : b = b0 := (Option.some.inj hbs).symm
      have hset : (s.bricks.set idx (writeBack b0 (applySnapToMesh f mesh)))[idx]?
          = some (writeBack b0 (applySnapToMesh f mesh)) := list_set_getElem?_self _ _ _ hidx
      have hb'eq : b' = writeBack b0 (applySnapToMesh f mesh) :=
        (Option.some.inj (hset.symm.trans hb')).symm
      subst hbb0 hb'eq
      exact ⟨rfl, rfl, rfl⟩

theorem C9_commit_frame_witness :
    (commitSelectedMeshToState ⟨true, true, true, false⟩
        ⟨[⟨0, "2x2", 3, 4, 5, 0, 45, 0, (1, 0, 0)⟩, ⟨1, "1x2", 0, 0, 0, 0, 0, 0, (0, 1, 0)⟩],
          [⟨3, 4, 5, 0, 1/4, 0⟩, ⟨0, 0, 0, 0, 0, 0⟩], some 0, false, true⟩).bricks.length = 2
    ∧ (commitSelectedMeshToState ⟨true, true, true, false⟩
        ⟨[⟨0, "2x2", 3, 4, 5, 0, 45, 0, (1, 0, 0)⟩, ⟨1, "1x2", 0, 0, 0, 0, 0, 0, (0, 1, 0)⟩],
          [⟨3, 4, 5, 0, 1/4, 0⟩, ⟨0, 0, 0, 0, 0, 0⟩], some 0, false, true⟩).bricks[1]?
      = some ⟨1, "1x2", 0, 0, 0, 0, 0, 0, (0, 1, 0)⟩ := by
  obtain ⟨h1, h2, _⟩ := C9_commit_frame.1 ⟨true, true, true, false⟩
    ⟨[⟨0, "2x2", 3, 4, 5, 0, 45, 0, (1, 0, 0)⟩, ⟨1, "1x2", 0, 0, 0, 0, 0, 0, (0, 1, 0)⟩],
      [⟨3, 4, 5, 0, 1/4, 0⟩, ⟨0, 0, 0, 0, 0, 0⟩], some 0, false, true⟩ 0 rfl
  exact ⟨h1, (h2 1 (by decide)).trans (by decide!)⟩

theorem C8_snap_idempotent_witness :
    applySnapToMesh ⟨true, true, true, false⟩ ⟨8, 16/5, 0, 1/2, 0, 1⟩
      = ⟨8, 16/5, 0, 1/2, 0, 1⟩ :=
  C8_snap_idempotent ⟨true, true, true, false⟩ ⟨8, 16/5, 0, 1/2, 0, 1⟩
    ⟨1, by norm_num [stepXZ, STUD_PITCH]⟩
    ⟨1, by norm_num [stepY, PLATE_H, BRICK_H]⟩
    ⟨0, by norm_num⟩
    ⟨1, by norm_num [degToRad]⟩
    ⟨0, by norm_num⟩
    ⟨2, by norm_num [degToRad]⟩

/-- C6: manual selection suppresses auto-highlight emphasis at every moment
(`applyMaterialState` shows the auto emphasis only when no manual selection
is active), and after any change of the step cursor — increase or decrease —
the auto-highlight index is recomputed from the new cursor as `cursor - 1`,
with no auto-highlight when the cursor is 0, and no manual selection
surviving the change. -/
theorem C6_highlight :
    (∀ (s : ViewState) (i : ℕ), s.selected.isSome → emphasisOf s i ≠ .autoEm)
    ∧ (∀ (s : ViewState) (n : ℕ), n ≤ s.partCount →
        (stepChange s n).selected = none
        ∧ (stepChange s n).autoIdx = if 0 < n then some (n - 1) else none) := by
  constructor
  · intro s i hsel
    unfold emphasisOf
    by_cases h1 : s.selected = some i
    · simp [h1]
    · rw [if_neg h1]
      have h2 : ¬(s.autoIdx = some i ∧ s.selected = none) := by
        rintro ⟨-, hnone⟩
        rw [hnone] at hsel
        exact Bool.noConfusion hsel
      rw [if_neg h2]
      decide
  · intro s n hn
    unfold stepChange
    exact ⟨rfl, by simp [Nat.min_eq_left hn]⟩

theorem C6_highlight_witness :
    emphasisOf ⟨3, 3, some 0, some 2⟩ 2 ≠ .autoEm
    ∧ ((stepChange ⟨3, 3, some 0, some 2⟩ 2).selected = none
       ∧ (stepChange ⟨3, 3, some 0, some 2⟩ 2).autoIdx = if 0 < 2 then some 1 else none) :=
  ⟨C6_highlight.1 ⟨3, 3, some 0, some 2⟩ 2 rfl,
   C6_highlight.2 ⟨3, 3, some 0, some 2⟩ 2 (by decide)⟩

/-- C7: starting from any in-range state, every sequence of cursor events
(Prev/Next/Show-all/slider/Enter/Backspace and Part-list replacements, each
followed by the clamping effect) keeps the step cursor within
`[0, partCount]`; a cursor of 5 with 3 parts remaining clamps to 3. -/
theorem C7_cursor_clamped :
    (∀ (evs : List StepEvent) (s : StepState), stepTraceOk s evs →
       0 ≤ s.step → s.step ≤ (s.len : ℤ) →
       0 ≤ (stepRun s evs).step ∧ (stepRun s evs).step ≤ ((stepRun s evs).len : ℤ))
    ∧ stepRun ⟨5, 5⟩ [.partsChanged 3] = ⟨3, 3⟩ := by
  constructor
  · intro evs
    induction evs with
    | nil => intro s _ h0 h1; exact ⟨h0, h1⟩
    | cons e rest ih =>
      intro s hok h0 h1
      obtain ⟨hev, hrest⟩ := hok
      have h2 : 0 ≤ (stepApply s e).step ∧ (stepApply s e).step ≤ ((stepApply s e).len : ℤ) := by
        cases e <;> simp only [stepApply, stepEventOk] at hev ⊢ <;> omega
      exact ih (stepApply s e) hrest h2.1 h2.2
  · decide

theorem C7_cursor_clamped_witness :
    0 ≤ (stepRun ⟨0, 2⟩ [.nextBtn, .nextBtn, .nextBtn, .partsChanged 1]).step
    ∧ (stepRun ⟨0, 2⟩ [.nextBtn, .nextBtn, .nextBtn, .partsChanged 1]).step
        ≤ ((stepRun ⟨0, 2⟩ [.nextBtn, .nextBtn, .nextBtn, .partsChanged 1]).len : ℤ) :=
  C7_cursor_clamped.1 [.nextBtn, .nextBtn, .nextBtn, .partsChanged 1] ⟨0, 2⟩
    ⟨trivial, trivial, trivial, trivial, trivial⟩ (by norm_num) (by norm_num)

theorem withIds_mem {i : ℕ} {l : List Brick} {b : Brick} (h : b ∈ withIds i l) :
    ∃ b' ∈ l, b.kind = b'.kind := by
  induction l generalizing i with
  | nil => cases h
  | cons hd tl ih =>
    rw [withIds] at h
    rcases List.mem_cons.mp h with h1 | h2
    · exact ⟨hd, List.mem_cons_self hd tl, by subst h1; rfl⟩
    · obtain ⟨b', hb', hk⟩ := ih h2
      exact ⟨b', List.mem_cons_of_mem _ hb', hk⟩

theorem mkBrickRaw_none (kindRaw args : List Char)
    (h : (lookupDims (String.mk kindRaw)).isNone = true) :
    mkBrickRaw kindRaw args = none := by
  unfold mkBrickRaw
  simp [h]

theorem mkBrickRaw_some (kindRaw args : List Char)
    (h : ¬(lookupDims (String.mk kindRaw)).isNone = true) :
    ∃ b, mkBrickRaw kindRaw args = some b ∧ b.kind = String.mk kindRaw := by
  unfold mkBrickRaw
  rw [if_neg h]
  exact ⟨_, rfl, rfl⟩

/-- C3: the parser is total and lenient — every Part it produces has a kind
from the static catalog; a matched statement with an unknown kind is skipped
(`continue`); a matched statement with a known kind always produces a Part,
whatever its argument text; and with an empty argument text all the
documented defaults apply (origin position, zero rotation, default color). -/
theorem C3_parse_lenient :
    (∀ (text : String) (b : Brick), b ∈ parseBrickDSL text → (lookupDims b.kind).isSome)
    ∧ (∀ (kindRaw args : List Char), (lookupDims (String.mk kindRaw)).isNone = true →
        mkBrickRaw kindRaw args = none)
    ∧ (∀ (kindRaw args : List Char), ¬(lookupDims (String.mk kindRaw)).isNone = true →
        ∃ b, mkBrickRaw kindRaw args = some b)
    ∧ (∀ kindRaw : List Char, ¬(lookupDims (String.mk kindRaw)).isNone = true →
        mkBrickRaw kindRaw []
          = some ⟨0, String.mk kindRaw, 0, 0, 0, 0, 0, 0, (4/5, 1/10, 1/10)⟩) := by
  refine ⟨?_, mkBrickRaw_none, fun kr args h => ?_, fun kr h => ?_⟩
  · intro text b hb
    simp only [parseBrickDSL] at hb
    obtain ⟨b1, hb1, hkind⟩ := withIds_mem hb
    obtain ⟨kv, _, heq⟩ := List.mem_filterMap.mp hb1
    by_cases hN : (lookupDims (String.mk kv.1)).isNone = true
    · rw [mkBrickRaw_none kv.1 kv.2 hN] at heq
      exact Option.noConfusion heq
    · obtain ⟨b2, he2, hk2⟩ := mkBrickRaw_some kv.1 kv.2 hN
      rw [he2] at heq
      have hbb : b2 = b1 := Option.some.inj heq
      rw [hkind, ← hbb, hk2]
      cases hL : lookupDims (String.mk kv.1) with
      | none => exact absurd (by rw [hL]; rfl) hN
      | some v => rfl
  · obtain ⟨b, hbeq, _⟩ := mkBrickRaw_some kr args h
    exact ⟨b, hbeq⟩
  · have e1 : clamp01 (4/5) = 4/5 := by norm_num [clamp01, min_def, max_def]
    have e2 : clamp01 (1/10) = 1/10 := by norm_num [clamp01, min_def, max_def]
    unfold mkBrickRaw
    rw [if_neg h]
    simp only [searchNum, searchVec3, positionOf, e1, e2]

theorem C3_parse_lenient_witness :
    (lookupDims "2x2").isSome
    ∧ mkBrickRaw "wat".data "xMm=1".data = none
    ∧ (∃ b, mkBrickRaw "2x4".data "no fields at all".data = some b)
    ∧ mkBrickRaw "tile_2x2".data []
        = some ⟨0, "tile_2x2", 0, 0, 0, 0, 0, 0, (4/5, 1/10, 1/10)⟩ := by
  refine ⟨?_, ?_, ?_, ?_⟩
  · exact C3_parse_lenient.1 "some junk, then brick(\"2x2\", );"
      ⟨0, "2x2", 0, 0, 0, 0, 0, 0, (4/5, 1/10, 1/10)⟩ (by decide!)
  · exact C3_parse_lenient.2.1 "wat".data "xMm=1".data (by decide)
  · exact C3_parse_lenient.2.2.1 "2x4".data "no fields at all".data (by decide)
  · exact C3_parse_lenient.2.2.2 "tile_2x2".data (by decide)

/-- C5: the explicit-units triple (xMm, yMm, zMm) takes priority when fully
present; otherwise a full grid-units triple is scaled by the stud pitch (the
two grid axes) and the brick height (the level) to produce the position;
with neither full triple the position defaults to the origin; e.g.
`xStud=2, yStud=0, zLevel=0` yields position `(16, 0, 0)`. -/
theorem C5_position_encoding :
    (∀ (kindRaw args : List Char) (b : Brick), mkBrickRaw kindRaw args = some b →
      (b.xMm, b.yMm, b.zMm)
        = positionOf (searchNum "xMm".data args) (searchNum "yMm".data args)
            (searchNum "zMm".data args) (searchNum "xStud".data args)
            (searchNum "yStud".data args) (searchNum "zLevel".data args))
    ∧ (∀ (a b c : ℚ) (xs ys zl : Option ℚ),
        positionOf (some a) (some b) (some c) xs ys zl = (a, b, c))
    ∧ (∀ (xm ym zm : Option ℚ) (sx sy sl : ℚ),
        (xm = none ∨ ym = none ∨ zm = none) →
        positionOf xm ym zm (some sx) (some sy) (some sl)
          = (sx * STUD_PITCH, sl * BRICK_H, sy * STUD_PITCH))
    ∧ (∀ (xm ym zm xs ys zl : Option ℚ),
        (xm = none ∨ ym = none ∨ zm = none) →
        (xs = none ∨ ys = none ∨ zl = none) →
        positionOf xm ym zm xs ys zl = (0, 0, 0))
    ∧ (parseBrickDSL "brick(\"2x2\", xStud=2, yStud=0, zLevel=0);").map
        (fun b => (b.xMm, b.yMm, b.zMm)) = [(16, 0, 0)] := by
  refine ⟨?_, fun a b c xs ys zl => rfl, ?_, ?_, by decide!⟩
  · intro kindRaw args b hsome
    unfold mkBrickRaw at hsome
    by_cases hN : (lookupDims (String.mk kindRaw)).isNone = true
    · rw [if_pos hN] at hsome
      exact Option.noConfusion hsome
    · rw [if_neg hN] at hsome
      have hb := (Option.some.inj hsome).symm
      subst hb
      rfl
  · intro xm ym zm sx sy sl h
    cases xm <;> cases ym <;> cases zm <;>
      first
        | rfl
        | (rcases h with h | h | h <;> exact Option.noConfusion h)
  · intro xm ym zm xs ys zl h1 h2
    cases xm <;> cases ym <;> cases zm <;>
      first
        | (cases xs <;> cases ys <;> cases zl <;>
            first
              | rfl
              | (rcases h2 with h2 | h2 | h2 <;> exact Option.noConfusion h2))
        | (rcases h1 with h1 | h1 | h1 <;> exact Option.noConfusion h1)

theorem C5_position_encoding_witness :
    positionOf none (some 1) (some 2) (some 2) (some 0) (some 0)
      = (2 * STUD_PITCH, 0 * BRICK_H, 0 * STUD_PITCH)
    ∧ ((⟨0, "2x2", 16, 0, 0, 0, 0, 0, (4/5, 1/10, 1/10)⟩ : Brick).xMm,
       (⟨0, "2x2", 16, 0, 0, 0, 0, 0, (4/5, 1/10, 1/10)⟩ : Brick).yMm,
       (⟨0, "2x2", 16, 0, 0, 0, 0, 0, (4/5, 1/10, 1/10)⟩ : Brick).zMm)
      = positionOf (searchNum "xMm".data " xStud=2, yStud=0, zLevel=0".data)
          (searchNum "yMm".data " xStud=2, yStud=0, zLevel=0".data)
          (searchNum "zMm".data " xStud=2, yStud=0, zLevel=0".data)
          (searchNum "xStud".data " xStud=2, yStud=0, zLevel=0".data)
          (searchNum "yStud".data " xStud=2, yStud=0, zLevel=0".data)
          (searchNum "zLevel".data " xStud=2, yStud=0, zLevel=0".data) :=
  ⟨C5_position_encoding.2.2.1 none (some 1) (some 2) 2 0 0 (Or.inl rfl),
   C5_position_encoding.1 "2x2".data " xStud=2, yStud=0, zLevel=0".data
     ⟨0, "2x2", 16, 0, 0, 0, 0, 0, (4/5, 1/10, 1/10)⟩ (by decide!)⟩

theorem alget_cons_self {α β : Type} [DecidableEq α] (k : α) (v : β) (l : List (α × β)) :
    alget k ((k, v) :: l) = some v := by
  simp [alget]

theorem alget_cons_ne {α β : Type} [DecidableEq α] {a k : α} (v : β) (l : List (α × β))
    (h : a ≠ k) : alget k ((a, v) :: l) = alget k l := by
  simp [alget, h]

theorem alget_none_iff {α β : Type} [DecidableEq α] (k : α) (l : List (α × β)) :
    alget k l = none ↔ k ∉ l.map Prod.fst := by
  induction l with
  | nil => simp [alget]
  | cons hd tl ih =>
    obtain ⟨a, b⟩ := hd
    by_cases h : a = k
    · subst h
      simp [alget]
    · have hka : ¬k = a := fun hh => h hh.symm
      simp only [alget, if_neg h, ih, List.map_cons, List.mem_cons, not_or]
      simp [hka]

theorem alget_alset_self_map {α β : Type} [DecidableEq α] (q : α) (v : β)
    (l : List (α × β)) : alget q (alset q v l) = (alget q l).map fun _ => v := by
  induction l with
  | nil => rfl
  | cons hd tl ih =>
    obtain ⟨a, b⟩ := hd
    by_cases ha : a = q
    · subst ha
      simp [alset, alget]
    · simp [alset, alget, ha, ih]

theorem alget_alset_self {α β : Type} [DecidableEq α] {q : α} {w : β} (v : β)
    {l : List (α × β)} (h : alget q l = some w) : alget q (alset q v l) = some v := by
  rw [alget_alset_self_map, h]
  rfl

theorem alget_alset_ne {α β : Type} [DecidableEq α] {p q : α} (v : β) (l : List (α × β))
    (h : q ≠ p) : alget q (alset p v l) = alget q l := by
  induction l with
  | nil => rfl
  | cons hd tl ih =>
    obtain ⟨a, b⟩ := hd
    by_cases ha : a = p
    · subst ha
      simp only [alset, eq_self_iff_true, if_true]
      rw [alget_cons_ne v tl (Ne.symm h), alget_cons_ne b tl (Ne.symm h)]
    · simp [alset, alget, ha, ih]

theorem alget_alset_cases {α β : Type} [DecidableEq α] {p q : α} {v e : β}
    {l : List (α × β)} (h : alget q (alset p v l) = some e) :
    (q = p ∧ e = v) ∨ (q ≠ p ∧ alget q l = some e) := by
  by_cases hq : q = p
  · subst hq
    rw [alget_alset_self_map] at h
    cases hget : alget q l with
    | none => rw [hget] at h; exact Option.noConfusion h
    | some w =>
      rw [hget] at h
      exact Or.inl ⟨rfl, (Option.some.inj h).symm⟩
  · exact Or.inr ⟨hq, by rwa [alget_alset_ne v l hq] at h⟩

theorem alget_alerase_ne {α β : Type} [DecidableEq α] {k k' : α} (l : List (α × β))
    (h : k' ≠ k) : alget k' (alerase k l) = alget k' l := by
  induction l with
  | nil => rfl
  | cons hd tl ih =>
    obtain ⟨a, b⟩ := hd
    by_cases ha : a = k
    · subst ha
      simp only [alerase, eq_self_iff_true, if_true]
      rw [alget_cons_ne b tl (Ne.symm h)]
    · simp [alerase, alget, ha, ih]

theorem alget_alerase_self {α β : Type} [DecidableEq α] {k : α} {l : List (α × β)}
    (hnd : (l.map Prod.fst).Nodup) : alget k (alerase k l) = none := by
  induction l with
  | nil => rfl
  | cons hd tl ih =>
    obtain ⟨a, b⟩ := hd
    simp only [List.map_cons, List.nodup_cons] at hnd
    by_cases ha : a = k
    · subst ha
      simpa [alerase] using (alget_none_iff a tl).mpr hnd.1
    · simp [alerase, alget, ha, ih hnd.2]

theorem alerase_keys_sub {α β : Type} [DecidableEq α] (k x : α) (l : List (α × β))
    (h : x ∈ (alerase k l).map Prod.fst) : x ∈ l.map Prod.fst := by
  induction l with
  | nil => exact h
  | cons hd tl ih =>
    obtain ⟨a, b⟩ := hd
    simp only [List.map_cons, List.mem_cons]
    by_cases ha : a = k
    · subst ha
      simp only [alerase, if_pos rfl] at h
      exact Or.inr h
    · simp only [alerase, if_neg ha, List.map_cons, List.mem_cons] at h
      rcases h with h | h
      · exact Or.inl h
      · exact Or.inr (ih h)

theorem nodup_alerase {α β : Type} [DecidableEq α] (k : α) {l : List (α × β)}
    (hnd : (l.map Prod.fst).Nodup) : ((alerase k l).map Prod.fst).Nodup := by
  induction l with
  | nil => exact hnd
  | cons hd tl ih =>
    obtain ⟨a, b⟩ := hd
    simp only [List.map_cons, List.nodup_cons] at hnd
    by_cases ha : a = k
    · subst ha
      simp only [alerase, eq_self_iff_true, if_true]
      exact hnd.2
    · simp only [alerase, if_neg ha, List.map_cons, List.nodup_cons]
      exact ⟨fun hmem => hnd.1 (alerase_keys_sub k a tl hmem), ih hnd.2⟩

theorem nodup_cons_alget {α β : Type} [DecidableEq α] {k : α} (v : β) {l : List (α × β)}
    (h : alget k l = none) (hnd : (l.map Prod.fst).Nodup) :
    (((k, v) :: l).map Prod.fst).Nodup := by
  simp only [List.map_cons, List.nodup_cons]
  exact ⟨(alget_none_iff k l).mp h, hnd⟩

/-- One cache event preserves the invariant, records a correct observation,
keeps existing trace records valid, never forgets a key, and starts a compile
only for a previously unknown key. -/
theorem cacheStep_preserve (s : CacheState) (e : CacheEvent) (hInv : CacheInv s) :
    CacheInv (cacheStep s e).1
    ∧ (∀ k r, (cacheStep s e).2 = some (k, r) → trackOne (cacheStep s e).1 k r)
    ∧ (∀ k r, trackOne s k r → trackOne (cacheStep s e).1 k r)
    ∧ (∀ k, keyKnownB s k = true → keyKnownB (cacheStep s e).1 k = true)
    ∧ (∀ k p, (cacheStep s e).2 = some (k, .started p) →
        keyKnownB s k = false ∧ keyKnownB (cacheStep s e).1 k = true) := by
  cases e with
  | resolveEv k0 =>
    cases hc : alget k0 s.cache with
    | some m =>
      have hstep : cacheStep s (.resolveEv k0) = (s, some (k0, .hit m)) := by
        simp only [cacheStep, hc]
      rw [hstep]
      refine ⟨hInv, ?_, fun k r h => h, fun k h => h, ?_⟩
      · intro k r hobs
        injection hobs with h2
        injection h2 with h3 h4
        subst h3
        subst h4
        exact hc
      · intro k p hobs
        injection hobs with h2
        injection h2 with h3 h4
        cases h4
    | none =>
      cases hi : alget k0 s.inflight with
      | some p0 =>
        have hstep : cacheStep s (.resolveEv k0) = (s, some (k0, .joined p0)) := by
          simp only [cacheStep, hc, hi]
        rw [hstep]
        refine ⟨hInv, ?_, fun k r h => h, fun k h => h, ?_⟩
        · intro k r hobs
          injection hobs with h2
          injection h2 with h3 h4
          subst h3
          subst h4
          obtain ⟨st, hst, -⟩ := hInv.reg k0 p0 hi
          exact ⟨st, hst⟩
        · intro k p hobs
          injection hobs with h2
          injection h2 with h3 h4
          cases h4
      | none =>
        have hstep : cacheStep s (.resolveEv k0)
            = ({ s with inflight := (k0, s.next) :: s.inflight,
                        proms := (s.next, k0, none) :: s.proms,
                        next := s.next + 1 },
               some (k0, .started s.next)) := by
          simp only [cacheStep, hc, hi]
        rw [hstep]
        refine ⟨?_, ?_, ?_, ?_, ?_⟩
        · -- the invariant
          refine ⟨nodup_cons_alget s.next hi hInv.nodupInf, ?_, ?_, ?_, ?_⟩
          · -- reg
            intro k p hkp
            by_cases hk : k0 = k
            · subst hk
              rw [alget_cons_self] at hkp
              have hp : p = s.next := (Option.some.inj hkp).symm
              subst hp
              exact ⟨none, alget_cons_self _ _ _, fun m h => Option.noConfusion h⟩
            · rw [alget_cons_ne _ _ hk] at hkp
              obtain ⟨st, hst, hnok⟩ := hInv.reg k p hkp
              have hpne : s.next ≠ p := fun h => absurd hst (by
                rw [← h]
                intro hcon
                exact absurd rfl (Nat.ne_of_lt (hInv.fresh s.next _ hcon)))
              exact ⟨st, by rw [alget_cons_ne _ _ hpne]; exact hst, hnok⟩
          · -- states
            intro p k st hkst
            by_cases hp : s.next = p
            · subst hp
              rw [alget_cons_self] at hkst
              injection hkst with h2
              injection h2 with hk hst2
              subst hk
              subst hst2
              refine ⟨fun _ => ⟨alget_cons_self _ _ _, hc⟩,
                     fun d hd => Option.noConfusion hd,
                     fun m hm => Option.noConfusion hm⟩
            · rw [alget_cons_ne _ _ hp] at hkst
              obtain ⟨hnone, herr, hok⟩ := hInv.states p k st hkst
              refine ⟨fun h => ?_, fun d hd => ?_, fun m hm => ?_⟩
              · obtain ⟨h1, h2⟩ := hnone h
                have hk : k0 ≠ k := fun he => by rw [he, h1] at hi; exact Option.noConfusion hi
                exact ⟨by rw [alget_cons_ne _ _ hk]; exact h1, h2⟩
              · obtain ⟨h1, h2⟩ := herr d hd
                have hk : k0 ≠ k := fun he => by rw [he, h1] at hi; exact Option.noConfusion hi
                exact ⟨by rw [alget_cons_ne _ _ hk]; exact h1, h2⟩
              · obtain ⟨h1, h2⟩ := hok m hm
                have hk : k0 ≠ k := fun he => by rw [he, h1] at hc; exact Option.noConfusion hc
                exact ⟨h1, by rw [alget_cons_ne _ _ hk]; exact h2⟩
          · -- uniq
            intro p q k stp stq hpk hqk
            by_cases hpn : s.next = p
            · by_cases hqn : s.next = q
              · rw [← hpn, ← hqn]
              · subst hpn
                rw [alget_cons_self] at hpk
                injection hpk with h2
                injection h2 with hk1 _
                rw [alget_cons_ne _ _ hqn] at hqk
                subst hk1
                obtain ⟨hnone, herr, hok⟩ := hInv.states q k0 stq hqk
                exfalso
                cases stq with
                | none => rw [(hnone rfl).1] at hi; exact Option.noConfusion hi
                | some o =>
                  cases o with
                  | ok m => rw [(hok m rfl).1] at hc; exact Option.noConfusion hc
                  | err d => rw [(herr d rfl).1] at hi; exact Option.noConfusion hi
            · by_cases hqn : s.next = q
              · subst hqn
                rw [alget_cons_self] at hqk
                injection hqk with h2
                injection h2 with hk1 _
                rw [alget_cons_ne _ _ hpn] at hpk
                subst hk1
                obtain ⟨hnone, herr, hok⟩ := hInv.states p k0 stp hpk
                exfalso
                cases stp with
                | none => rw [(hnone rfl).1] at hi; exact Option.noConfusion hi
                | some o =>
                  cases o with
                  | ok m => rw [(hok m rfl).1] at hc; exact Option.noConfusion hc
                  | err d => rw [(herr d rfl).1] at hi; exact Option.noConfusion hi
              · rw [alget_cons_ne _ _ hpn] at hpk
                rw [alget_cons_ne _ _ hqn] at hqk
                exact hInv.uniq p q k stp stq hpk hqk
          · -- fresh
            intro p epair hpe
            by_cases hpn : s.next = p
            · subst hpn
              exact Nat.lt_succ_self _
            · rw [alget_cons_ne _ _ hpn] at hpe
              exact Nat.lt_succ_of_lt (hInv.fresh p epair hpe)
        · -- the new observation
          intro k r hobs
          injection hobs with h2
          injection h2 with h3 h4
          subst h3
          subst h4
          exact ⟨none, alget_cons_self _ _ _⟩
        · -- stability
          intro k r ht
          cases r with
          | hit m => exact ht
          | joined p =>
            obtain ⟨st, hst⟩ := ht
            have hpne : s.next ≠ p := fun h => absurd hst (by
              rw [← h]
              intro hcon
              exact absurd rfl (Nat.ne_of_lt (hInv.fresh s.next _ hcon)))
            exact ⟨st, by rw [alget_cons_ne _ _ hpne]; exact hst⟩
          | started p =>
            obtain ⟨st, hst⟩ := ht
            have hpne : s.next ≠ p := fun h => absurd hst (by
              rw [← h]
              intro hcon
              exact absurd rfl (Nat.ne_of_lt (hInv.fresh s.next _ hcon)))
            exact ⟨st, by rw [alget_cons_ne _ _ hpne]; exact hst⟩
        · -- keys are never forgotten
          intro k hk
          simp only [keyKnownB] at hk ⊢
          by_cases hk0 : k0 = k
          · subst hk0
            rw [alget_cons_self]
            simp
          · rw [alget_cons_ne _ _ hk0]
            exact hk
        · -- a started compile was for an unknown key
          intro k p hobs
          injection hobs with h2
          injection h2 with h3 h4
          subst h3
          constructor
          · simp [keyKnownB, hc, hi]
          · simp [keyKnownB, alget_cons_self]
  | settleOkEv k0 =>
    cases hi : alget k0 s.inflight with
    | none =>
      have hstep : cacheStep s (.settleOkEv k0) = (s, none) := by
        simp only [cacheStep, hi]
      rw [hstep]
      exact ⟨hInv, fun k r h => Option.noConfusion h, fun k r h => h, fun k h => h,
             fun k p h => Option.noConfusion h⟩
    | some p0 =>
      obtain ⟨st2, hst2, hnok2⟩ := hInv.reg k0 p0 hi
      cases st2 with
      | some o =>
        have hstep : cacheStep s (.settleOkEv k0) = (s, none) := by
          simp only [cacheStep, hi, hst2]
        rw [hstep]
        exact ⟨hInv, fun k r h => Option.noConfusion h, fun k r h => h, fun k h => h,
               fun k p h => Option.noConfusion h⟩
      | none =>
        have hcache0 : alget k0 s.cache = none := ((hInv.states p0 k0 none hst2).1 rfl).2
        have hstep : cacheStep s (.settleOkEv k0)
            = ({ s with cache := (k0, s.next) :: s.cache,
                        inflight := alerase k0 s.inflight,
                        proms := alset p0 (k0, some (.ok s.next)) s.proms,
                        next := s.next + 1 }, none) := by
          simp only [cacheStep, hi, hst2]
        rw [hstep]
        refine ⟨?_, fun k r h => Option.noConfusion h, ?_, ?_, fun k p h => Option.noConfusion h⟩
        · -- the invariant
          refine ⟨nodup_alerase k0 hInv.nodupInf, ?_, ?_, ?_, ?_⟩
          · -- reg
            intro k p hkp
            have hk : k ≠ k0 := by
              intro he2
              subst he2
              rw [alget_alerase_self hInv.nodupInf] at hkp
              exact Option.noConfusion hkp
            rw [alget_alerase_ne _ hk] at hkp
            obtain ⟨st3, hst3, hnok3⟩ := hInv.reg k p hkp
            have hpne : p ≠ p0 := by
              intro he2
              subst he2
              have h4 := Option.some.inj (hst3.symm.trans hst2)
              injection h4 with h5 _
              exact hk h5
            exact ⟨st3, by rw [alget_alset_ne _ _ hpne]; exact hst3, hnok3⟩
          · -- states
            intro p k st hkst
            rcases alget_alset_cases hkst with ⟨rfl, he2⟩ | ⟨hpne, hold⟩
            · injection he2 with h5 h6
              subst h5
              subst h6
              refine ⟨fun h => Option.noConfusion h, fun d hd => ?_, fun m hm => ?_⟩
              · exfalso
                injection hd with hd2
                cases hd2
              · injection hm with hm2
                injection hm2 with hm3
                subst hm3
                exact ⟨alget_cons_self _ _ _, alget_alerase_self hInv.nodupInf⟩
            · obtain ⟨hnone, herr, hok⟩ := hInv.states p k st hold
              refine ⟨fun h => ?_, fun d hd => ?_, fun m hm => ?_⟩
              · obtain ⟨h1, h2⟩ := hnone h
                have hk : k ≠ k0 := by
                  intro he2
                  subst he2
                  rw [hi] at h1
                  exact hpne (Option.some.inj h1).symm
                exact ⟨by rw [alget_alerase_ne _ hk]; exact h1,
                       by rw [alget_cons_ne _ _ (Ne.symm hk)]; exact h2⟩
              · obtain ⟨h1, h2⟩ := herr d hd
                have hk : k ≠ k0 := by
                  intro he2
                  subst he2
                  rw [hi] at h1
                  exact hpne (Option.some.inj h1).symm
                exact ⟨by rw [alget_alerase_ne _ hk]; exact h1,
                       by rw [alget_cons_ne _ _ (Ne.symm hk)]; exact h2⟩
              · obtain ⟨h1, h2⟩ := hok m hm
                have hk : k ≠ k0 := by
                  intro he2
                  subst he2
                  rw [hcache0] at h1
                  exact Option.noConfusion h1
                exact ⟨by rw [alget_cons_ne _ _ (Ne.symm hk)]; exact h1,
                       by rw [alget_alerase_ne _ hk]; exact h2⟩
          · -- uniq
            intro p q k stp stq hpk hqk
            rcases alget_alset_cases hpk with ⟨rfl, hep⟩ | ⟨hpne, holdp⟩
            · rcases alget_alset_cases hqk with ⟨rfl, -⟩ | ⟨hqne, holdq⟩
              · rfl
              · injection hep with h5 _
                subst h5
                exact absurd (hInv.uniq q p k stq none holdq hst2) hqne
            · rcases alget_alset_cases hqk with ⟨rfl, heq⟩ | ⟨hqne, holdq⟩
              · injection heq with h5 _
                subst h5
                exact absurd (hInv.uniq p q k stp none holdp hst2) hpne
              · exact hInv.uniq p q k stp stq holdp holdq
          · -- fresh
            intro p epair2 hpe
            rcases alget_alset_cases hpe with ⟨rfl, -⟩ | ⟨hpne, hold⟩
            · exact Nat.lt_succ_of_lt (hInv.fresh p _ hst2)
            · exact Nat.lt_succ_of_lt (hInv.fresh p epair2 hold)
        · -- stability
          intro k r ht
          cases r with
          | hit m =>
            have hk : k ≠ k0 := by
              intro he2
              subst he2
              have ht2 : alget k s.cache = some m := ht
              rw [hcache0] at ht2
              exact Option.noConfusion ht2
            show alget k ((k0, s.next) :: s.cache) = some m
            rw [alget_cons_ne _ _ (Ne.symm hk)]
            exact ht
          | joined p =>
            obtain ⟨st3, hst3⟩ := ht
            by_cases hpp : p = p0
            · subst hpp
              have h4 := Option.some.inj (hst3.symm.trans hst2)
              injection h4 with h5 _
              subst h5
              exact ⟨some (.ok s.next), alget_alset_self _ hst2⟩
            · exact ⟨st3, by rw [alget_alset_ne _ _ hpp]; exact hst3⟩
          | started p =>
            obtain ⟨st3, hst3⟩ := ht
            by_cases hpp : p = p0
            · subst hpp
              have h4 := Option.some.inj (hst3.symm.trans hst2)
              injection h4 with h5 _
              subst h5
              exact ⟨some (.ok s.next), alget_alset_self _ hst2⟩
            · exact ⟨st3, by rw [alget_alset_ne _ _ hpp]; exact hst3⟩
        · -- keys are never forgotten
          intro k hk
          simp only [keyKnownB] at hk ⊢
          by_cases hk0 : k = k0
          · subst hk0
            rw [alget_cons_self]
            simp
          · rw [alget_cons_ne _ _ (Ne.symm hk0), alget_alerase_ne _ hk0]
            exact hk
  | settleErrEv k0 d =>
    cases hi : alget k0 s.inflight with
    | none =>
      have hstep : cacheStep s (.settleErrEv k0 d) = (s, none) := by
        simp only [cacheStep, hi]
      rw [hstep]
      exact ⟨hInv, fun k r h => Option.noConfusion h, fun k r h => h, fun k h => h,
             fun k p h => Option.noConfusion h⟩
    | some p0 =>
      obtain ⟨st2, hst2, hnok2⟩ := hInv.reg k0 p0 hi
      cases st2 with
      | some o =>
        have hstep : cacheStep s (.settleErrEv k0 d) = (s, none) := by
          simp only [cacheStep, hi, hst2]
        rw [hstep]
        exact ⟨hInv, fun k r h => Option.noConfusion h, fun k r h => h, fun k h => h,
               fun k p h => Option.noConfusion h⟩
      | none =>
        have hcache0 : alget k0 s.cache = none := ((hInv.states p0 k0 none hst2).1 rfl).2
        have hstep : cacheStep s (.settleErrEv k0 d)
            = ({ s with proms := alset p0 (k0, some (.err d)) s.proms }, none) := by
          simp only [cacheStep, hi, hst2]
        rw [hstep]
        refine ⟨?_, fun k r h => Option.noConfusion h, ?_, fun k h => h,
               fun k p h => Option.noConfusion h⟩
        · -- the invariant
          refine ⟨hInv.nodupInf, ?_, ?_, ?_, ?_⟩
          · -- reg
            intro k p hkp
            obtain ⟨st3, hst3, hnok3⟩ := hInv.reg k p hkp
            by_cases hpp : p = p0
            · subst hpp
              have h4 := Option.some.inj (hst3.symm.trans hst2)
              injection h4 with h5 _
              subst h5
              refine ⟨some (.err d), alget_alset_self _ hst2, fun m hmm => ?_⟩
              injection hmm with hmm2
              cases hmm2
            · exact ⟨st3, by rw [alget_alset_ne _ _ hpp]; exact hst3, hnok3⟩
          · -- states
            intro p k st hkst
            rcases alget_alset_cases hkst with ⟨rfl, he2⟩ | ⟨hpne, hold⟩
            · injection he2 with h5 h6
              subst h5
              subst h6
              refine ⟨fun h => Option.noConfusion h, fun d2 hd => ?_, fun m hm => ?_⟩
              · exact ⟨hi, hcache0⟩
              · exfalso
                injection hm with hm2
                cases hm2
            · exact hInv.states p k st hold
          · -- uniq
            intro p q k stp stq hpk hqk
            rcases alget_alset_cases hpk with ⟨rfl, hep⟩ | ⟨hpne, holdp⟩
            · rcases alget_alset_cases hqk with ⟨rfl, -⟩ | ⟨hqne, holdq⟩
              · rfl
              · injection hep with h5 _
                subst h5
                exact absurd (hInv.uniq q p k stq none holdq hst2) hqne
            · rcases alget_alset_cases hqk with ⟨rfl, heq⟩ | ⟨hqne, holdq⟩
              · injection heq with h5 _
                subst h5
                exact absurd (hInv.uniq p q k stp none holdp hst2) hpne
              · exact hInv.uniq p q k stp stq holdp holdq
          · -- fresh
            intro p epair2 hpe
            rcases alget_alset_cases hpe with ⟨rfl, -⟩ | ⟨hpne, hold⟩
            · exact hInv.fresh p _ hst2
            · exact hInv.fresh p epair2 hold
        · -- stability
          intro k r ht
          cases r with
          | hit m => exact ht
          | joined p =>
            obtain ⟨st3, hst3⟩ := ht
            by_cases hpp : p = p0
            · subst hpp
              have h4 := Option.some.inj (hst3.symm.trans hst2)
              injection h4 with h5 _
              subst h5
              exact ⟨some (.err d), alget_alset_self _ hst2⟩
            · exact ⟨st3, by rw [alget_alset_ne _ _ hpp]; exact hst3⟩
          | started p =>
            obtain ⟨st3, hst3⟩ := ht
            by_cases hpp : p = p0
            · subst hpp
              have h4 := Option.some.inj (hst3.symm.trans hst2)
              injection h4 with h5 _
              subst h5
              exact ⟨some (.err d), alget_alset_self _ hst2⟩
            · exact ⟨st3, by rw [alget_alset_ne _ _ hpp]; exact hst3⟩

theorem cacheRun_cons (s : CacheState) (e : CacheEvent) (rest : List CacheEvent) :
    cacheRun s (e :: rest)
      = ((cacheRun (cacheStep s e).1 rest).1,
         (cacheStep s e).2.toList ++ (cacheRun (cacheStep s e).1 rest).2) := rfl

theorem startedCount_append (k : GeomKey) (a b : List (GeomKey × ResolveRes)) :
    startedCount k (a ++ b) = startedCount k a + startedCount k b := by
  simp [startedCount, List.filter_append]

/-- Running any event list from an invariant-satisfying state preserves the
invariant, validates every observation against the final state, keeps
previously valid trace records valid, and starts at most one compile per key
(none at all for a key that is already cached or in flight). -/
theorem cacheRun_spec (evs : List CacheEvent) :
    ∀ s : CacheState, CacheInv s →
      CacheInv (cacheRun s evs).1
      ∧ (∀ k r, (k, r) ∈ (cacheRun s evs).2 → trackOne (cacheRun s evs).1 k r)
      ∧ (∀ k r, trackOne s k r → trackOne (cacheRun s evs).1 k r)
      ∧ (∀ k, startedCount k (cacheRun s evs).2
          ≤ if keyKnownB s k then 0 else 1) := by
  induction evs with
  | nil =>
    intro s hInv
    refine ⟨hInv, fun k r h => absurd h (List.not_mem_nil _), fun k r h => h, fun k => ?_⟩
    show (0 : ℕ) ≤ _
    exact Nat.zero_le _
  | cons e rest ih =>
    intro s hInv
    obtain ⟨hInv1, hobs1, hstab1, hmono1, hemit1⟩ := cacheStep_preserve s e hInv
    obtain ⟨hInvF, hobsF, hstabF, hcntF⟩ := ih (cacheStep s e).1 hInv1
    rw [cacheRun_cons]
    refine ⟨hInvF, ?_, fun k r ht => hstabF k r (hstab1 k r ht), ?_⟩
    · intro k r hmem
      rcases List.mem_append.mp hmem with hmem | hmem
      · cases ho : (cacheStep s e).2 with
        | none => rw [ho] at hmem; exact absurd hmem (List.not_mem_nil _)
        | some x =>
          rw [ho] at hmem
          have hx : x = (k, r) := by
            rcases List.mem_singleton.mp hmem with h
            exact h.symm
          subst hx
          exact hstabF k r (hobs1 k r ho)
      · exact hobsF k r hmem
    · intro k
      rw [startedCount_append]
      cases ho : (cacheStep s e).2 with
      | none =>
        have h0 : startedCount k (Option.none (α := GeomKey × ResolveRes)).toList = 0 := rfl
        rw [h0, Nat.zero_add]
        by_cases hkk : keyKnownB s k = true
        · have := hcntF k
          rw [if_pos (hmono1 k hkk)] at this
          rw [if_pos hkk]
          exact this
        · rw [if_neg hkk]
          exact le_trans (hcntF k) (by split <;> omega)
      | some x =>
        obtain ⟨kx, rx⟩ := x
        by_cases hks : kx = k ∧ isStarted rx = true
        · obtain ⟨rfl, hstart⟩ := hks
          cases rx with
          | hit m => exact absurd hstart (by simp [isStarted])
          | joined p => exact absurd hstart (by simp [isStarted])
          | started p =>
            obtain ⟨hkn, hkn'⟩ := hemit1 kx p ho
            have h1 : startedCount kx [(kx, ResolveRes.started p)] = 1 := by
              simp [startedCount, isStarted]
            rw [Option.toList_some, h1]
            have := hcntF kx
            rw [if_pos hkn'] at this
            rw [if_neg (by rw [hkn]; exact Bool.false_ne_true)]
            omega
        · have h0 : startedCount k [(kx, rx)] = 0 := by
            simp only [startedCount, List.filter, List.length_nil]
            rw [decide_eq_false (by simpa using hks)]
            rfl
          rw [Option.toList_some, h0, Nat.zero_add]
          by_cases hkk : keyKnownB s k = true
          · have := hcntF k
            rw [if_pos (hmono1 k hkk)] at this
            rw [if_pos hkk]
            exact this
          · rw [if_neg hkk]
            exact le_trans (hcntF k) (by split <;> omega)

theorem initCache_inv : CacheInv initCache := by
  refine ⟨List.nodup_nil, ?_, ?_, ?_, ?_⟩
  · intro k p h
    exact Option.noConfusion h
  · intro p k st h
    exact Option.noConfusion h
  · intro p q k stp stq h
    exact Option.noConfusion h
  · intro p e h
    exact Option.noConfusion h

/-- A trace record plus an observed delivered mesh pins the key's cache
entry. -/
theorem delivered_eq_cache (sf : CacheState) (hInv : CacheInv sf) (k : GeomKey)
    (r : ResolveRes) (m : ℕ) (ht : trackOne sf k r) (hm : meshOf sf r = some m) :
    alget k sf.cache = some m := by
  cases r with
  | hit m2 =>
    have hm2 : some m2 = some m := hm
    rw [← Option.some.inj hm2]
    exact ht
  | joined p =>
    obtain ⟨st, hst⟩ := ht
    have hm2 : (match alget p sf.proms with
      | some (_, some (.ok mm)) => some mm
      | _ => none) = some m := hm
    rw [hst] at hm2
    cases st with
    | none => exact Option.noConfusion hm2
    | some o =>
      cases o with
      | err d => exact Option.noConfusion hm2
      | ok m2 =>
        have : m2 = m := Option.some.inj hm2
        subst this
        exact ((hInv.states p k _ hst).2.2 m2 rfl).1
  | started p =>
    obtain ⟨st, hst⟩ := ht
    have hm2 : (match alget p sf.proms with
      | some (_, some (.ok mm)) => some mm
      | _ => none) = some m := hm
    rw [hst] at hm2
    cases st with
    | none => exact Option.noConfusion hm2
    | some o =>
      cases o with
      | err d => exact Option.noConfusion hm2
      | ok m2 =>
        have : m2 = m := Option.some.inj hm2
        subst this
        exact ((hInv.states p k _ hst).2.2 m2 rfl).1

/-- C2: over every event trace of the geometry cache, any two resolve calls
for the same GeomKey that ever deliver a mesh deliver the same mesh instance
(reference identity, modelled by allocation number), and at most one compile
is ever started per key — concurrent calls join the in-flight promise and
later calls hit the cache. -/
theorem C2_resolve_dedup :
    (∀ (evs : List CacheEvent) (k : GeomKey) (r1 r2 : ResolveRes) (m1 m2 : ℕ),
      (k, r1) ∈ (cacheRun initCache evs).2 → (k, r2) ∈ (cacheRun initCache evs).2 →
      meshOf (cacheRun initCache evs).1 r1 = some m1 →
      meshOf (cacheRun initCache evs).1 r2 = some m2 → m1 = m2)
    ∧ (∀ (evs : List CacheEvent) (k : GeomKey),
        startedCount k (cacheRun initCache evs).2 ≤ 1) := by
  constructor
  · intro evs k r1 r2 m1 m2 h1 h2 hm1 hm2
    obtain ⟨hInvF, hobsF, -, -⟩ := cacheRun_spec evs initCache initCache_inv
    have e1 := delivered_eq_cache _ hInvF k r1 m1 (hobsF k r1 h1) hm1
    have e2 := delivered_eq_cache _ hInvF k r2 m2 (hobsF k r2 h2) hm2
    exact Option.some.inj (e1.symm.trans e2)
  · intro evs k
    obtain ⟨-, -, -, hcnt⟩ := cacheRun_spec evs initCache initCache_inv
    have := hcnt k
    rwa [if_neg (by simp [keyKnownB, initCache, alget])] at this

theorem C2_resolve_dedup_witness :
    meshOf (cacheRun initCache demoTrace).1 (.started 0) = some 1
    ∧ meshOf (cacheRun initCache demoTrace).1 (.hit 1) = some 1
    ∧ (1 : ℕ) = 1
    ∧ startedCount demoKey (cacheRun initCache demoTrace).2 ≤ 1 :=
  ⟨by decide!, by decide!,
   C2_resolve_dedup.1 demoTrace demoKey (.started 0) (.hit 1) 1 1
     (by decide!) (by decide!) (by decide!) (by decide!),
   C2_resolve_dedup.2 demoTrace demoKey⟩

/-- C1, evaluated at the failing input: after a compile failure for a key,
both waiters were rejected with the diagnostic through the shared promise 0
and the mesh cache holds nothing for the key — but the rejected promise is
left in the in-flight map (`geomPromiseRef.delete` runs only on success), so
the retry resolve returns the same settled-failed promise (`joined 0`)
instead of starting a new compile, contradicting the claim that a later
resolve attempts compilation again. -/
theorem C1_failed_compile_poisons_retry :
    (cacheRun initCache demoFailTrace).2
      = [(demoKey, .started 0), (demoKey, .joined 0)]
    ∧ alget 0 (cacheRun initCache demoFailTrace).1.proms
      = some (demoKey, some (.err "ERROR: OpenSCAD compile failed"))
    ∧ alget demoKey (cacheRun initCache demoFailTrace).1.cache = none
    ∧ alget demoKey (cacheRun initCache demoFailTrace).1.inflight = some 0 := by
  refine ⟨by decide!, by decide!, by decide!, by decide!⟩

theorem hex_good : ∀ c ∈ lowerHexDigits, goodHexChar c ((hexVal c).getD 0) := by
  unfold goodHexChar
  decide

theorem toHexDigit_good : ∀ v : ℕ, v < 16 → goodHexChar (toHexDigit v) v := by
  unfold goodHexChar
  decide

theorem toHexDigit_hexVal : ∀ c ∈ lowerHexDigits, toHexDigit ((hexVal c).getD 0) = c := by
  decide

set_option maxRecDepth 4000 in
theorem byteToHexChars_split : ∀ h : ℕ, h < 16 → ∀ l : ℕ, l < 16 →
    byteToHexChars (16 * h + l) = [toHexDigit h, toHexDigit l] := by
  decide!

set_option maxRecDepth 4000 in
theorem byteToHexChars_digits : ∀ k : ℕ, k < 256 →
    byteToHexChars k = [toHexDigit (k / 16), toHexDigit (k % 16)] := by
  decide!

/-- Symbolic evaluation of `hexToRgb01` on `#` followed by six hex digits. -/
theorem hexToRgb01_six (c1 c2 c3 c4 c5 c6 : Char) (v1 v2 v3 v4 v5 v6 : ℕ)
    (h1 : goodHexChar c1 v1) (h2 : goodHexChar c2 v2) (h3 : goodHexChar c3 v3)
    (h4 : goodHexChar c4 v4) (h5 : goodHexChar c5 v5) (h6 : goodHexChar c6 v6) :
    hexToRgb01 ['#', c1, c2, c3, c4, c5, c6]
      = (((16 * v1 + v2 : ℕ) : ℚ) / 255, ((16 * v3 + v4 : ℕ) : ℚ) / 255,
         ((16 * v5 + v6 : ℕ) : ℚ) / 255) := by
  obtain ⟨hv1, hlt1, hws1, hm1, hp1, hx1, hX1⟩ := h1
  obtain ⟨hv2, hlt2, hws2, hm2, hp2, hx2, hX2⟩ := h2
  obtain ⟨hv3, hlt3, hws3, hm3, hp3, hx3, hX3⟩ := h3
  obtain ⟨hv4, hlt4, hws4, hm4, hp4, hx4, hX4⟩ := h4
  obtain ⟨hv5, hlt5, hws5, hm5, hp5, hx5, hX5⟩ := h5
  obtain ⟨hv6, hlt6, hws6, hm6, hp6, hx6, hX6⟩ := h6
  set N : ℕ := (((((0 * 16 + v1) * 16 + v2) * 16 + v3) * 16 + v4) * 16 + v5) * 16 + v6
    with hN
  have hrem : removeFirstHash ['#', c1, c2, c3, c4, c5, c6] = [c1, c2, c3, c4, c5, c6] := by
    simp [removeFirstHash]
  have hskip : skipWs [c1, c2, c3, c4, c5, c6] = [c1, c2, c3, c4, c5, c6] := by
    simp only [skipWs, hws1, Bool.false_eq_true, if_false]
  have hsgn : parseSign [c1, c2, c3, c4, c5, c6] = (false, [c1, c2, c3, c4, c5, c6]) := by
    simp [parseSign, hm1, hp1]
  have hstrip : strip0x [c1, c2, c3, c4, c5, c6] = [c1, c2, c3, c4, c5, c6] := by
    simp [strip0x, hx2, hX2]
  have hdigits : hexDigitsVal 0 [c1, c2, c3, c4, c5, c6] false = some N := by
    rw [hN]
    simp only [hexDigitsVal, hv1, hv2, hv3, hv4, hv5, hv6, if_true]
  have hparse : parseIntHex [c1, c2, c3, c4, c5, c6] = some ((N : ℕ) : ℤ) := by
    unfold parseIntHex
    rw [hskip, hsgn]
    simp only [hstrip, hdigits, Option.map_some]
    rfl
  have hNlt : N < 4294967296 := by
    rw [hN]
    omega
  have hemod : ((N : ℕ) : ℤ) % 4294967296 = ((N : ℕ) : ℤ) :=
    Int.emod_eq_of_lt (Int.natCast_nonneg N) (by exact_mod_cast hNlt)
  have hb1 : N / 65536 % 256 = 16 * v1 + v2 := by
    rw [hN]
    omega
  have hb2 : N / 256 % 256 = 16 * v3 + v4 := by
    rw [hN]
    omega
  have hb3 : N % 256 = 16 * v5 + v6 := by
    rw [hN]
    omega
  have hfull : (if ([c1, c2, c3, c4, c5, c6] : List Char).length = 3
      then [c1, c2, c3, c4, c5, c6].flatMap (fun c => [c, c])
      else [c1, c2, c3, c4, c5, c6]) = [c1, c2, c3, c4, c5, c6] := by
    simp
  unfold hexToRgb01
  simp only [hrem, hfull, hparse, Option.getD_some]
  rw [hemod, Int.toNat_natCast, hb1, hb2, hb3]

/-- Symbolic evaluation of `rgb01ToHex` on exact byte fractions. -/
theorem rgb01ToHex_bytes (k1 k2 k3 : ℕ) (hk1 : k1 ≤ 255) (hk2 : k2 ≤ 255)
    (hk3 : k3 ≤ 255) :
    rgb01ToHex ((k1 : ℚ) / 255, (k2 : ℚ) / 255, (k3 : ℚ) / 255)
      = '#' :: (byteToHexChars k1 ++ byteToHexChars k2 ++ byteToHexChars k3) := by
  have hbyte : ∀ k : ℕ, k ≤ 255 →
      (max 0 (min 255 (jsRound ((k : ℚ) / 255 * 255)))).toNat = k := by
    intro k hk
    have hmul : (k : ℚ) / 255 * 255 = (k : ℚ) := by
      field_simp
    rw [hmul]
    have hjr : jsRound (k : ℚ) = (k : ℤ) := by
      have : ((k : ℤ) : ℚ) = (k : ℚ) := by push_cast; ring
      rw [← this, jsRound_intCast]
    rw [hjr]
    have hmin : min (255 : ℤ) (k : ℤ) = (k : ℤ) :=
      min_eq_right (by exact_mod_cast hk)
    have hmax : max (0 : ℤ) (k : ℤ) = (k : ℤ) :=
      max_eq_right (Int.natCast_nonneg k)
    rw [hmin, hmax, Int.toNat_natCast]
  unfold rgb01ToHex
  simp only []
  rw [hbyte k1 hk1, hbyte k2 hk2, hbyte k3 hk3]

/-- C10: the hex/RGB conversions round-trip — `rgb01ToHex ∘ hexToRgb01` is
the identity on `#` plus six lowercase hex digits, and
`hexToRgb01 ∘ rgb01ToHex` is the identity on triples of exact multiples of
1/255 in [0, 1]. -/
theorem C10_hex_roundtrip :
    (∀ c1 c2 c3 c4 c5 c6 : Char, c1 ∈ lowerHexDigits → c2 ∈ lowerHexDigits →
      c3 ∈ lowerHexDigits → c4 ∈ lowerHexDigits → c5 ∈ lowerHexDigits →
      c6 ∈ lowerHexDigits →
      rgb01ToHex (hexToRgb01 ['#', c1, c2, c3, c4, c5, c6])
        = ['#', c1, c2, c3, c4, c5, c6])
    ∧ (∀ r g b : ℕ, r ≤ 255 → g ≤ 255 → b ≤ 255 →
      hexToRgb01 (rgb01ToHex ((r : ℚ) / 255, (g : ℚ) / 255, (b : ℚ) / 255))
        = ((r : ℚ) / 255, (g : ℚ) / 255, (b : ℚ) / 255)) := by
  constructor
  · intro c1 c2 c3 c4 c5 c6 h1 h2 h3 h4 h5 h6
    have g1 := hex_good c1 h1
    have g2 := hex_good c2 h2
    have g3 := hex_good c3 h3
    have g4 := hex_good c4 h4
    have g5 := hex_good c5 h5
    have g6 := hex_good c6 h6
    rw [hexToRgb01_six c1 c2 c3 c4 c5 c6 _ _ _ _ _ _ g1 g2 g3 g4 g5 g6]
    have hle : ∀ a b : ℕ, a < 16 → b < 16 → 16 * a + b ≤ 255 := by omega
    rw [rgb01ToHex_bytes _ _ _
      (hle _ _ g1.2.1 g2.2.1) (hle _ _ g3.2.1 g4.2.1) (hle _ _ g5.2.1 g6.2.1)]
    rw [byteToHexChars_split _ g1.2.1 _ g2.2.1, byteToHexChars_split _ g3.2.1 _ g4.2.1,
        byteToHexChars_split _ g5.2.1 _ g6.2.1]
    rw [toHexDigit_hexVal c1 h1, toHexDigit_hexVal c2 h2, toHexDigit_hexVal c3 h3,
        toHexDigit_hexVal c4 h4, toHexDigit_hexVal c5 h5, toHexDigit_hexVal c6 h6]
    rfl
  · intro r g b hr hg hb
    rw [rgb01ToHex_bytes r g b hr hg hb]
    rw [byteToHexChars_digits r (by omega), byteToHexChars_digits g (by omega),
        byteToHexChars_digits b (by omega)]
    have hlist : ('#' :: ([toHexDigit (r / 16), toHexDigit (r % 16)]
        ++ [toHexDigit (g / 16), toHexDigit (g % 16)]
        ++ [toHexDigit (b / 16), toHexDigit (b % 16)]))
        = ['#', toHexDigit (r / 16), toHexDigit (r % 16), toHexDigit (g / 16),
           toHexDigit (g % 16), toHexDigit (b / 16), toHexDigit (b % 16)] := rfl
    rw [hlist]
    rw [hexToRgb01_six _ _ _ _ _ _ (r / 16) (r % 16) (g / 16) (g % 16) (b / 16) (b % 16)
      (toHexDigit_good _ (by omega)) (toHexDigit_good _ (by omega))
      (toHexDigit_good _ (by omega)) (toHexDigit_good _ (by omega))
      (toHexDigit_good _ (by omega)) (toHexDigit_good _ (by omega))]
    have e1 : 16 * (r / 16) + r % 16 = r := by omega
    have e2 : 16 * (g / 16) + g % 16 = g := by omega
    have e3 : 16 * (b / 16) + b % 16 = b := by omega
    rw [e1, e2, e3]

theorem C10_hex_roundtrip_witness :
    rgb01ToHex (hexToRgb01 ['#', 'a', 'a', 'b', 'b', 'c', 'c'])
      = ['#', 'a', 'a', 'b', 'b', 'c', 'c']
    ∧ hexToRgb01 (rgb01ToHex ((255 : ℚ) / 255, (0 : ℚ) / 255, (17 : ℚ) / 255))
      = ((255 : ℚ) / 255, (0 : ℚ) / 255, (17 : ℚ) / 255) :=
  ⟨C10_hex_roundtrip.1 'a' 'a' 'b' 'b' 'c' 'c' (by decide) (by decide) (by decide)
     (by decide) (by decide) (by decide),
   C10_hex_roundtrip.2 255 0 17 (by decide) (by decide) (by decide)⟩

end Bricked
